import Mathlib

/-!
# Verification of `sync_dd_from_file.py`

A shallow embedding of the reconciliation engine of the repository
`SyncDynamicGroupsFromFile` (file `src/sync_dd_from_file.py`), together with
proofs and refutations of the frozen specification claims.

Python strings are modelled as `List Char` (`PyString`); python dicts used as
lookup indexes are modelled as functions `PyString → Option α` built by
left-to-right insertion (last write wins, exactly like `dict` assignment).
Remote API calls (`create_group_by_api`, `patch_group_by_api`,
`delete_group_by_api`, `add_member_to_group_by_api`,
`delete_member_from_group_by_api`, `get_group_members_by_api`) are external
collaborators; they are modelled by an environment of response functions, and
the operations the engine would invoke are collected in an explicit trace.
Logging, `time.sleep` rate-limit pauses and the diagnostic
`save_group_members_to_csv` write are side effects with no influence on the
engine's decisions and are not modelled.  The defensive
`if ad_groups is None: ad_groups = []` normalisation cannot be observed with
typed lists and is likewise dropped.
-/

/-- Python `str` modelled as a list of characters. -/
abbrev PyString := List Char

/-- Python `s.lower()`. -/
def pyLower (s : PyString) : PyString := s.map Char.toLower

/-- Python truthiness of an optional string (`None` and `""` are falsy). -/
def pyTruthy : Option PyString → Bool
  | none => false
  | some s => !s.isEmpty

/-- Python `s.startswith(p)`. -/
def pyStartsWith (p s : PyString) : Bool := p.isPrefixOf s

/-- Python `s.split(c)` (full split; always returns at least one piece). -/
def pySplit (c : Char) : PyString → List PyString
  | [] => [[]]
  | x :: xs =>
    if x = c then [] :: pySplit c xs
    else
      match pySplit c xs with
      | [] => [[x]]
      | h :: t => (x :: h) :: t

/-- Python `s.split(c, 1)[1]` together with `s.split(c, 1)[0]`:
`some (before, after)` when the separator occurs, `none` when
`s.split(c, 1)` has a single piece (the `IndexError` case). -/
def pySplitOnce (c : Char) : PyString → Option (PyString × PyString)
  | [] => none
  | x :: xs =>
    if x = c then some ([], xs)
    else
      match pySplitOnce c xs with
      | none => none
      | some (a, b) => some (x :: a, b)

/-- Python `s.split('@')[0]`, the local part of a mail address. -/
def localPart (s : PyString) : PyString := (pySplit '@' s).headD []

/-- Python set insertion (`set.add`): membership-preserving, no duplicates. -/
def pySetAdd (s : List PyString) (x : PyString) : List PyString :=
  if s.contains x then s else s ++ [x]

/-- Python dict assignment `m[k] = v` on an index modelled as a function. -/
def dictInsert {α : Type} (m : PyString → Option α) (k : PyString) (v : α) :
    PyString → Option α :=
  fun x => if x = k then some v else m x

/-- The sync-tag prefix `"DDG;"` used in `externalId`. -/
def ddgTag : PyString := "DDG;".toList

/-- One Active Directory group record (result of `get_ldap_dynamic_groups`);
attributes retrieved with `dict.get` may be absent. -/
structure AdGroup where
  objectGUID : Option PyString
  displayName : Option PyString
  mail : Option PyString
  description : Option PyString
deriving DecidableEq, Repr

/-- One Yandex 360 group record (result of `get_all_groups_from_api360`).
The orchestrator reads these fields with `dict.get(key, '')`, so absent
fields are identified with the empty string. -/
structure Y360Group where
  gid : PyString
  externalId : PyString
  name : PyString
  label : PyString
  description : PyString
deriving DecidableEq, Repr

/-- One Yandex 360 user record (result of `get_all_api360_users` or of
`get_group_members_by_api`): `id`, optional `nickname`, `aliases`
(absent modelled as `[]`, matching `user.get('aliases', [])`). -/
structure Y360User where
  uid : PyString
  nickname : Option PyString
  aliases : List PyString
deriving DecidableEq, Repr

/-- The statistics dict of `sync_ad_groups_to_y360`. -/
structure GroupStats where
  ad_groups_count : Nat
  y360_groups_count : Nat
  created_count : Nat
  updated_count : Nat
  deleted_count : Nat
  errors_count : Nat
  skipped_count : Nat
deriving DecidableEq, Repr

/-- Zero-initialised `GroupStats` (lines 1815-1823). -/
def groupStats0 : GroupStats :=
  ⟨0, 0, 0, 0, 0, 0, 0⟩

/-- A field patch for `patch_group_by_api`: the `changes_needed` dict over the
three compared attributes; `none` means the attribute is not in the patch. -/
structure Patch where
  name : Option PyString
  label : Option PyString
  description : Option PyString
deriving DecidableEq, Repr

/-- The empty `changes_needed` dict. -/
def emptyPatch : Patch := ⟨none, none, none⟩

/-- The `group_data` payload built for `create_group_by_api`
(lines 1940-1959): `label` and `description` keys are only present under
the conditions of the source. -/
structure CreatePayload where
  name : PyString
  externalId : PyString
  label : Option PyString
  description : Option PyString
deriving DecidableEq, Repr

/-- A mutating remote call of the group-level sync. -/
inductive GroupOp where
  | create (payload : CreatePayload)
  | patch (gid : PyString) (p : Patch)
  | delete (gid : PyString)
deriving DecidableEq, Repr

/-- Responses of the remote collaborator for group-level calls:
`createOk`/`patchOk` are the success booleans, `deleteRes` is
`(success, result.get('removed'))`. -/
structure RemoteEnv where
  createOk : CreatePayload → Bool
  patchOk : PyString → Patch → Bool
  deleteRes : PyString → Bool × Bool

/-- The always-succeeding remote collaborator. -/
def remoteAllOk : RemoteEnv :=
  { createOk := fun _ => true
    patchOk := fun _ _ => true
    deleteRes := fun _ => (true, true) }

/-- The dict `y360_groups_by_external_id` (lines 1842-1846): index target
groups with a truthy `externalId`; later entries overwrite earlier ones. -/
def buildGroupIndex (gs : List Y360Group) : PyString → Option Y360Group :=
  gs.foldl
    (fun m g => if g.externalId.isEmpty then m else dictInsert m g.externalId g)
    (fun _ => none)

/-- `expected_label` (line 1879): the local part of `mail` when `mail`
contains `'@'`, otherwise `None`. -/
def expectedLabel (mail : PyString) : Option PyString :=
  if mail.contains '@' then some (localPart mail) else none

/-- `expected_description` (line 1880): `description if description else ""`. -/
def expectedDescription : Option PyString → PyString
  | some d => if d.isEmpty then [] else d
  | none => []

/-- The field-diff engine (lines 1889-1911): the `changes_needed` dict for one
matched `(source, target)` pair.  Line 1900 guards the label comparison with
`if expected_label:` — Python truthiness — so an *empty* expected label
(mail with an empty local part) suppresses the comparison exactly like an
absent one. -/
def computeChanges (display_name : PyString) (expected_label : Option PyString)
    (expected_description : PyString) (g : Y360Group) : Patch :=
  { name := if g.name ≠ display_name then some display_name else none
    label :=
      match expected_label with
      | some l =>
          if l.isEmpty then none
          else if g.label ≠ l then some l else none
      | none => none
    description :=
      if g.description ≠ expected_description then some expected_description
      else none }

/-- The externalId `"DDG;" ++ objectGUID` formed on line 1876. -/
def adExtId (guid : PyString) : PyString := ddgTag ++ guid

/-- The match key of an AD group (line 1876). -/
def keyOf (ad : AdGroup) : PyString := adExtId (ad.objectGUID.getD [])

/-- The required-attribute check of lines 1858-1873: truthy `objectGUID`,
`displayName` and `mail`. -/
def adEligible (ad : AdGroup) : Bool :=
  pyTruthy ad.objectGUID && pyTruthy ad.displayName && pyTruthy ad.mail

/-- The creation payload `group_data` of an eligible AD group
(lines 1940-1959): `label` only when `mail` contains `'@'`, `description`
only when truthy. -/
def payloadOf (ad : AdGroup) : CreatePayload :=
  { name := ad.displayName.getD []
    externalId := keyOf ad
    label :=
      if (ad.mail.getD []).contains '@' then some (localPart (ad.mail.getD []))
      else none
    description := if pyTruthy ad.description then ad.description else none }

/-- The `changes_needed` dict of an eligible AD group against its matched
target group (lines 1878-1911). -/
def changesOf (ad : AdGroup) (g : Y360Group) : Patch :=
  computeChanges (ad.displayName.getD []) (expectedLabel (ad.mail.getD []))
    (expectedDescription ad.description) g

/-- One iteration of the `for ad_group in ad_groups` loop
(lines 1852-1976): required-attribute checks (the source's three
consecutive `continue` guards, each of which bumps `skipped_count` once,
folded into the single test `adEligible`), match by `externalId`, field
diff and update, or creation.  In live mode every decided call is appended
to the trace and its environment response drives the counters; in dry-run
mode the counters are bumped and no call is made. -/
def processAdGroup (env : RemoteEnv) (dryRun : Bool)
    (index : PyString → Option Y360Group)
    (acc : GroupStats × List GroupOp) (ad : AdGroup) :
    GroupStats × List GroupOp :=
  if ¬ adEligible ad then
    ({ acc.1 with skipped_count := acc.1.skipped_count + 1 }, acc.2)
  else
    match index (keyOf ad) with
    | some y360_group =>
        if changesOf ad y360_group ≠ emptyPatch then
          if dryRun then
            ({ acc.1 with updated_count := acc.1.updated_count + 1 }, acc.2)
          else if env.patchOk y360_group.gid (changesOf ad y360_group) then
            ({ acc.1 with updated_count := acc.1.updated_count + 1 },
              acc.2 ++ [GroupOp.patch y360_group.gid (changesOf ad y360_group)])
          else
            ({ acc.1 with errors_count := acc.1.errors_count + 1 },
              acc.2 ++ [GroupOp.patch y360_group.gid (changesOf ad y360_group)])
        else (acc.1, acc.2)
    | none =>
        if dryRun then
          ({ acc.1 with created_count := acc.1.created_count + 1 }, acc.2)
        else if env.createOk (payloadOf ad) then
          ({ acc.1 with created_count := acc.1.created_count + 1 },
            acc.2 ++ [GroupOp.create (payloadOf ad)])
        else
          ({ acc.1 with errors_count := acc.1.errors_count + 1 },
            acc.2 ++ [GroupOp.create (payloadOf ad)])

/-- The set `ad_object_guids` (lines 1983-1987), kept as a list whose
membership is what the python `set` provides. -/
def adGuidSet (ads : List AdGroup) : List PyString :=
  ads.foldl
    (fun s g => if pyTruthy g.objectGUID then pySetAdd s (g.objectGUID.getD []) else s)
    []

/-- The truthy `objectGUID` values of the source list, one per entry, in
order (unlike `adGuidSet`, without deduplication): `Nodup` of this list is
the data-model invariant that `objectGUID` is a unique identifier. -/
def adGuidList (ads : List AdGroup) : List PyString :=
  ads.filterMap
    (fun a => if pyTruthy a.objectGUID then some (a.objectGUID.getD []) else none)

/-- The `groups_to_delete` scan (lines 1992-2012): Y360 groups whose
`externalId` starts with `"DDG;"` and whose suffix after the first `';'`
is not an AD `objectGUID`. -/
def toDeleteList (ads : List AdGroup) (ys : List Y360Group) : List Y360Group :=
  ys.foldl
    (fun acc g =>
      if pyStartsWith ddgTag g.externalId then
        (match pySplitOnce ';' g.externalId with
          | none => acc
          | some (_, guid) =>
              if (adGuidSet ads).contains guid then acc else acc ++ [g])
      else acc)
    []

/-- One iteration of the deletion loop (lines 2018-2036). -/
def deleteStep (env : RemoteEnv) (dryRun : Bool)
    (acc : GroupStats × List GroupOp) (g : Y360Group) :
    GroupStats × List GroupOp :=
  if dryRun then
    ({ acc.1 with deleted_count := acc.1.deleted_count + 1 }, acc.2)
  else
    if (env.deleteRes g.gid).1 ∧ (env.deleteRes g.gid).2 then
      ({ acc.1 with deleted_count := acc.1.deleted_count + 1 },
        acc.2 ++ [GroupOp.delete g.gid])
    else
      ({ acc.1 with errors_count := acc.1.errors_count + 1 },
        acc.2 ++ [GroupOp.delete g.gid])

/-- The deletion phase (lines 1978-2038). -/
def deletePhase (env : RemoteEnv) (dryRun : Bool) (ads : List AdGroup)
    (ys : List Y360Group) (acc : GroupStats × List GroupOp) :
    GroupStats × List GroupOp :=
  (toDeleteList ads ys).foldl (deleteStep env dryRun) acc

/-- `sync_ad_groups_to_y360` (lines 1750-2058): group-level sync.  Returns
the `(success, stats)` pair of the source together with the trace of
mutating remote calls the run invokes. -/
def sync_ad_groups_to_y360 (env : RemoteEnv) (dryRun : Bool)
    (ad_groups : List AdGroup) (y360_groups : List Y360Group) :
    Bool × GroupStats × List GroupOp :=
  if ad_groups.isEmpty then (true, groupStats0, [])
  else
    let stats1 : GroupStats :=
      { groupStats0 with
          ad_groups_count := ad_groups.length
          y360_groups_count := y360_groups.length }
    let index := buildGroupIndex y360_groups
    let r1 := ad_groups.foldl (processAdGroup env dryRun index) (stats1, [])
    let r2 := deletePhase env dryRun ad_groups y360_groups r1
    (r2.1.errors_count == 0, r2.1, r2.2)

/-! ## Membership-level sync (`sync_group_members`, lines 1404-1747) -/

/-- The statistics dict of `sync_group_members` (lines 1483-1491). -/
structure MemberStats where
  y360_groups_processed : Nat
  ad_groups_found : Nat
  users_added_count : Nat
  users_removed_count : Nat
  users_not_found_count : Nat
  errors_count : Nat
  skipped_groups_count : Nat
deriving DecidableEq, Repr

/-- Zero-initialised `MemberStats`. -/
def memberStats0 : MemberStats := ⟨0, 0, 0, 0, 0, 0, 0⟩

/-- A mutating remote call of the membership sync (`add_member_to_group_by_api`
or `delete_member_from_group_by_api`, always with type `user`). -/
inductive MemberOp where
  | add (gid uid : PyString)
  | remove (gid uid : PyString)
deriving DecidableEq, Repr

/-- External collaborators of the membership sync: the per-group member list
call `get_group_members_by_api` (`none` models a failed call), the CSV file
store read by `get_group_members_from_file` (filename → parsed rows, `none`
models a missing file), and the responses of the two member-mutation calls
(`(success, result.get('added'))` resp. `(success, result.get('deleted'))`). -/
structure MemberEnv where
  getMembers : PyString → Option (List Y360User)
  files : PyString → Option (List (List PyString))
  addRes : PyString → PyString → Bool × Bool
  removeRes : PyString → PyString → Bool × Bool

/-- The always-succeeding remote responses for member mutations, with a given
member-list call and file store. -/
def memberEnvAllOk (getMembers : PyString → Option (List Y360User))
    (files : PyString → Option (List (List PyString))) : MemberEnv :=
  { getMembers := getMembers
    files := files
    addRes := fun _ _ => (true, true)
    removeRes := fun _ _ => (true, true) }

/-- Python `str.strip` over a character class: drop from both ends. -/
def pyStripChars (p : Char → Bool) (s : PyString) : PyString :=
  ((s.dropWhile p).reverse.dropWhile p).reverse

/-- The whitespace class of python `str.strip()`. -/
def pyIsSpace (c : Char) : Bool :=
  c = ' ' || c = '\t' || c = '\n' || c = '\x0d' || c = '\x0c' || c = '\x0b'

/-- The cleanup `row[1].strip().strip('"').strip("'")` of line 290. -/
def cleanEmail (s : PyString) : PyString :=
  pyStripChars (fun c => c = Char.ofNat 39)
    (pyStripChars (fun c => c = '"') (pyStripChars pyIsSpace s))

/-- The CSV file name of line 261:
`"Группа_рассылки_" + displayName.replace(' ', '_') + ".csv"`.  Joining with
the configured directory is dropped: the file store is keyed by this name. -/
def membersFileName (displayName : PyString) : PyString :=
  "Группа_рассылки_".toList ++
    displayName.map (fun c => if c = ' ' then '_' else c) ++ ".csv".toList

/-- `get_group_members_from_file` (lines 213-314): returns the e-mail
addresses of the second CSV column, `[]` when the group has no truthy
`displayName`, the file is missing, a row is short, or a value is empty.
The header row is skipped. -/
def get_group_members_from_file (files : PyString → Option (List (List PyString)))
    (displayName : Option PyString) : List PyString :=
  match displayName with
  | none => []
  | some dn =>
    if dn.isEmpty then []
    else
      match files (membersFileName dn) with
      | none => []
      | some rows =>
          (rows.drop 1).foldl
            (fun emails row =>
              if row.length < 2 then emails
              else
                let email := cleanEmail (row.getD 1 [])
                if email.isEmpty then emails else emails ++ [email])
            []

/-- The dict `ad_groups_by_guid` (lines 1512-1516). -/
def buildAdIndex (ads : List AdGroup) : PyString → Option AdGroup :=
  ads.foldl
    (fun m g =>
      match g.objectGUID with
      | none => m
      | some guid => if guid.isEmpty then m else dictInsert m guid g)
    (fun _ => none)

/-- The dict `y360_users_by_nickname` (lines 1522-1539): users with a truthy
`nickname` are indexed by their lower-cased nickname and by each lower-cased
alias; later writes overwrite earlier ones. -/
def buildUserIndex (users : List Y360User) : PyString → Option Y360User :=
  users.foldl
    (fun m u =>
      match u.nickname with
      | none => m
      | some n =>
          if n.isEmpty then m
          else
            u.aliases.foldl (fun m2 a => dictInsert m2 (pyLower a) u)
              (dictInsert m (pyLower n) u))
    (fun _ => none)

/-- The set `y360_member_nicknames` (lines 1591-1606): each member's
lower-cased nickname plus the aliases of the *index* user found under that
nickname.  `Except.error ()` models the uncaught `AttributeError` of line
1600, raised when `nickname` is `None` (`None.lower()`) or when the
lower-cased nickname is not a key of `y360_users_by_nickname`
(`None.get('aliases', [])`). -/
def y360MemberNicknames (index : PyString → Option Y360User) :
    List Y360User → List PyString → Except Unit (List PyString)
  | [], acc => .ok acc
  | user :: rest, acc =>
    match user.nickname with
    | none => .error ()
    | some n =>
        let acc1 := if !n.isEmpty then pySetAdd acc (pyLower n) else acc
        match index (pyLower n) with
        | none => .error ()
        | some iu =>
            y360MemberNicknames index rest
              (iu.aliases.foldl (fun a al => pySetAdd a (pyLower al)) acc1)

/-- The set `ad_nicknames_set` (lines 1621-1629): lower-cased local parts of
the file's e-mail addresses; addresses without `'@'` are skipped. -/
def adNicknameSet (emails : List PyString) : List PyString :=
  emails.foldl
    (fun s e =>
      if e.contains '@' then pySetAdd s (pyLower (localPart e)) else s)
    []

/-- An entry of `users_to_add` / `users_to_remove` (nickname, user id). -/
structure MemberRef where
  nickname : PyString
  user_id : PyString
deriving DecidableEq, Repr

/-- The `users_to_add` scan (lines 1632-1647): AD nicknames absent from the
member-nickname set, resolved through the user index; unresolved nicknames
are counted (`users_not_found_count` increments, second component). -/
def users_to_add_of (index : PyString → Option Y360User)
    (memberNs : List PyString) (adSet : List PyString) :
    List MemberRef × Nat :=
  adSet.foldl
    (fun acc n =>
      if memberNs.contains n then acc
      else
        match index n with
        | some u => (acc.1 ++ [⟨n, u.uid⟩], acc.2)
        | none => (acc.1, acc.2 + 1))
    ([], 0)

/-- The `users_to_remove` scan (lines 1650-1659): current members with a
truthy nickname whose lower-cased nickname is not in `ad_nicknames_set`;
the comparison uses the primary nickname only. -/
def users_to_remove_of (members : List Y360User) (adSet : List PyString) :
    List MemberRef :=
  members.foldl
    (fun acc u =>
      match u.nickname with
      | none => acc
      | some n =>
          if n.isEmpty then acc
          else if adSet.contains (pyLower n) then acc
          else acc ++ [⟨n, u.uid⟩])
    []

/-- One iteration of the addition loop (lines 1664-1688). -/
def applyAddStep (env : MemberEnv) (dryRun : Bool) (gid : PyString)
    (acc : MemberStats × List MemberOp) (u : MemberRef) :
    MemberStats × List MemberOp :=
  if dryRun then
    ({ acc.1 with users_added_count := acc.1.users_added_count + 1 }, acc.2)
  else
    if (env.addRes gid u.user_id).1 ∧ (env.addRes gid u.user_id).2 then
      ({ acc.1 with users_added_count := acc.1.users_added_count + 1 },
        acc.2 ++ [MemberOp.add gid u.user_id])
    else if (env.addRes gid u.user_id).1 then
      (acc.1, acc.2 ++ [MemberOp.add gid u.user_id])
    else
      ({ acc.1 with errors_count := acc.1.errors_count + 1 },
        acc.2 ++ [MemberOp.add gid u.user_id])

/-- One iteration of the removal loop (lines 1696-1720). -/
def applyRemoveStep (env : MemberEnv) (dryRun : Bool) (gid : PyString)
    (acc : MemberStats × List MemberOp) (u : MemberRef) :
    MemberStats × List MemberOp :=
  if dryRun then
    ({ acc.1 with users_removed_count := acc.1.users_removed_count + 1 }, acc.2)
  else
    if (env.removeRes gid u.user_id).1 ∧ (env.removeRes gid u.user_id).2 then
      ({ acc.1 with users_removed_count := acc.1.users_removed_count + 1 },
        acc.2 ++ [MemberOp.remove gid u.user_id])
    else if (env.removeRes gid u.user_id).1 then
      (acc.1, acc.2 ++ [MemberOp.remove gid u.user_id])
    else
      ({ acc.1 with errors_count := acc.1.errors_count + 1 },
        acc.2 ++ [MemberOp.remove gid u.user_id])

/-- One iteration of the `for y360_group in y360_groups` loop
(lines 1546-1728): tag filter, correlation to the AD group, member-list
call, nickname-set expansion (which may raise, line 1600), file read,
reconciliation and application of the add/remove decisions. -/
def processY360Group (env : MemberEnv) (dryRun : Bool)
    (adByGuid : PyString → Option AdGroup) (index : PyString → Option Y360User)
    (acc : MemberStats × List MemberOp) (g : Y360Group) :
    Except Unit (MemberStats × List MemberOp) :=
  if ¬ pyStartsWith ddgTag g.externalId then .ok (acc.1, acc.2)
  else
    match pySplitOnce ';' g.externalId with
    | none =>
        .ok ({ acc.1 with
                y360_groups_processed := acc.1.y360_groups_processed + 1
                skipped_groups_count := acc.1.skipped_groups_count + 1 },
              acc.2)
    | some (_, object_guid) =>
      match adByGuid object_guid with
      | none =>
          .ok ({ acc.1 with
                  y360_groups_processed := acc.1.y360_groups_processed + 1
                  skipped_groups_count := acc.1.skipped_groups_count + 1 },
                acc.2)
      | some ad_group =>
        match env.getMembers g.gid with
        | none =>
            .ok ({ acc.1 with
                    y360_groups_processed := acc.1.y360_groups_processed + 1
                    ad_groups_found := acc.1.ad_groups_found + 1
                    errors_count := acc.1.errors_count + 1 }, acc.2)
        | some members =>
          match y360MemberNicknames index members [] with
          | .error e => .error e
          | .ok memberNs =>
            if (get_group_members_from_file env.files
                ad_group.displayName).isEmpty then
              .ok ({ acc.1 with
                      y360_groups_processed := acc.1.y360_groups_processed + 1
                      ad_groups_found := acc.1.ad_groups_found + 1
                      skipped_groups_count := acc.1.skipped_groups_count + 1 },
                    acc.2)
            else
              .ok ((users_to_remove_of members
                  (adNicknameSet (get_group_members_from_file env.files
                    ad_group.displayName))).foldl
                (applyRemoveStep env dryRun g.gid)
                ((users_to_add_of index memberNs
                    (adNicknameSet (get_group_members_from_file env.files
                      ad_group.displayName))).1.foldl
                  (applyAddStep env dryRun g.gid)
                  ({ acc.1 with
                      y360_groups_processed := acc.1.y360_groups_processed + 1
                      ad_groups_found := acc.1.ad_groups_found + 1
                      users_not_found_count := acc.1.users_not_found_count +
                        (users_to_add_of index memberNs
                          (adNicknameSet (get_group_members_from_file env.files
                            ad_group.displayName))).2 },
                    acc.2)))

/-- The main loop of `sync_group_members` over the Y360 groups; an uncaught
exception in one iteration aborts the whole call. -/
def syncMembersLoop (env : MemberEnv) (dryRun : Bool)
    (adByGuid : PyString → Option AdGroup) (index : PyString → Option Y360User) :
    List Y360Group → MemberStats × List MemberOp →
    Except Unit (MemberStats × List MemberOp)
  | [], acc => .ok acc
  | g :: rest, acc =>
    match processY360Group env dryRun adByGuid index acc g with
    | .error e => .error e
    | .ok acc2 => syncMembersLoop env dryRun adByGuid index rest acc2

/-- `sync_group_members` (lines 1404-1747): membership sync.  Returns the
`(success, stats)` pair of the source and the trace of member-mutation calls;
`Except.error ()` models an exception escaping the function. -/
def sync_group_members (env : MemberEnv) (dryRun : Bool)
    (ad_groups : List AdGroup) (y360_groups : List Y360Group)
    (y360_users : List Y360User) :
    Except Unit (Bool × MemberStats × List MemberOp) :=
  if ad_groups.isEmpty then .ok (true, memberStats0, [])
  else if y360_groups.isEmpty then .ok (true, memberStats0, [])
  else if y360_users.isEmpty then .ok (true, memberStats0, [])
  else
    let adByGuid := buildAdIndex ad_groups
    let index := buildUserIndex y360_users
    match syncMembersLoop env dryRun adByGuid index y360_groups
        (memberStats0, []) with
    | .error e => .error e
    | .ok r => .ok (r.1.errors_count == 0, r.1, r.2)

/-! ## A model of the target service state

To state idempotence ("a target snapshot equal to the output of the first
run") the effect of the traced operations on the target-group list is made
explicit: `create` appends a group built from the payload with a
service-assigned fresh id, `patch` overwrites the patched attributes of the
group with the given id, `delete` removes the group with the given id. -/

/-- Overwrite the attributes present in the patch (the semantics of
`patch_group_by_api` on the group record). -/
def applyPatch (p : Patch) (g : Y360Group) : Y360Group :=
  { g with
      name := p.name.getD g.name
      label := p.label.getD g.label
      description := p.description.getD g.description }

/-- Patch `g` only when it carries the targeted id. -/
def patchIf (i : PyString) (p : Patch) (g : Y360Group) : Y360Group :=
  if g.gid = i then applyPatch p g else g

/-- The group record the service creates for a payload: absent `label` and
`description` keys become the empty string. -/
def mkCreated (payload : CreatePayload) (gid : PyString) : Y360Group :=
  { gid := gid
    externalId := payload.externalId
    name := payload.name
    label := payload.label.getD []
    description := payload.description.getD [] }

/-- Apply one group operation to the service state; `fresh` supplies
service-assigned ids for created groups, the counter is the number of
creations already performed. -/
def applyOp (fresh : Nat → PyString) (st : List Y360Group × Nat)
    (op : GroupOp) : List Y360Group × Nat :=
  match op with
  | .create p => (st.1 ++ [mkCreated p (fresh st.2)], st.2 + 1)
  | .patch i pch => (st.1.map (patchIf i pch), st.2)
  | .delete i => (st.1.filter (fun g => !(g.gid == i)), st.2)

/-- Apply a trace of group operations to a target snapshot. -/
def applyOps (fresh : Nat → PyString) (ys : List Y360Group)
    (ops : List GroupOp) : List Y360Group :=
  (ops.foldl (applyOp fresh) (ys, 0)).1

/-! ## The decisions of the ad-group loop, as pure call lists -/

/-- The remote calls decided by one ad-group iteration in live mode. -/
def emitForAd (index : PyString → Option Y360Group) (ad : AdGroup) :
    List GroupOp :=
  if adEligible ad then
    match index (keyOf ad) with
    | some g =>
        if changesOf ad g ≠ emptyPatch then [GroupOp.patch g.gid (changesOf ad g)]
        else []
    | none => [GroupOp.create (payloadOf ad)]
  else []

/-- The remote calls decided by the whole ad-group loop in live mode. -/
def emitAds (index : PyString → Option Y360Group) : List AdGroup → List GroupOp
  | [] => []
  | ad :: rest => emitForAd index ad ++ emitAds index rest


/-! ## Concrete instances used in the claim checks -/

/-- A well-formed AD group: `objectGUID` `g1`, name `Sales`, mail with a
local part, no description. -/
def adC4 : AdGroup :=
  ⟨some "g1".toList, some "Sales".toList, some "sales@x.ru".toList, none⟩

/-- A fresh-id supply for the service model. -/
def freshC4 : Nat → PyString := fun _ => "new0".toList

/-- A stale tagged target group matching `adC4` (its name differs). -/
def yStaleC1 : Y360Group :=
  ⟨"11".toList, "DDG;g1".toList, "Old".toList, "sales".toList, []⟩

/-- An orphaned tagged target group (its guid is in no source group). -/
def yOrphanC1 : Y360Group :=
  ⟨"12".toList, "DDG;gone".toList, "Orp".toList, [], []⟩

/-- An untagged (foreign) target group. -/
def yForeignC1 : Y360Group :=
  ⟨"13".toList, "other".toList, "F".toList, [], []⟩

/-- The handles under which `buildUserIndex` files a user: the lower-cased
nickname and the lower-cased aliases (nothing when the nickname is absent
or empty, matching lines 1522-1539). -/
def handlesOf (u : Y360User) : List PyString :=
  match u.nickname with
  | none => []
  | some n => if n.isEmpty then [] else pyLower n :: u.aliases.map pyLower

/-- A directory user for the uncaught-exception scenario. -/
def wUser : Y360User := ⟨"1".toList, some "walt".toList, []⟩

/-- A current group member whose nickname is not a key of the user index. -/
def ghostC7 : Y360User := ⟨"9".toList, some "ghost".toList, []⟩

/-- A source group with objectGUID `g7`. -/
def aC7 : AdGroup :=
  ⟨some "g7".toList, some "Team".toList, some "team@x.ru".toList, none⟩

/-- A tagged target group correlated with `aC7`. -/
def gC7 : Y360Group :=
  ⟨"21".toList, "DDG;g7".toList, "Team".toList, [], []⟩

/-- Environment in which the member-list call returns the unindexed
`ghostC7`. -/
def envC7 : MemberEnv :=
  memberEnvAllOk (fun _ => some [ghostC7]) (fun _ => some [])

/-- Environment with an empty member list and no membership files. -/
def envC10 : MemberEnv :=
  memberEnvAllOk (fun _ => some []) (fun _ => none)

/-- Directory user of the alias-retention scenario: `alice` carries the
alias `a.smith`. -/
def uAlice : Y360User :=
  ⟨"1".toList, some "alice".toList, ["a.smith".toList]⟩

/-- Directory user `bob`, a member no source handle covers. -/
def uBob : Y360User := ⟨"2".toList, some "bob".toList, []⟩

/-- Directory user `carol`, named by a source handle but not yet a member. -/
def uCarol : Y360User := ⟨"3".toList, some "carol".toList, []⟩

/-- The directory of the alias-retention scenario. -/
def usersC5 : List Y360User := [uAlice, uBob, uCarol]

/-- Current members of the reconciled group: `alice` and `bob`. -/
def membersC5 : List Y360User := [uAlice, uBob]

/-- Parsed rows of the membership CSV: a header row, then `a.smith@x.ru`
and `carol@x.ru` in the second column. -/
def rowsC5 : List (List PyString) :=
  [["h".toList],
    ["n".toList, "a.smith@x.ru".toList],
    ["n".toList, "carol@x.ru".toList]]

/-- The e-mail list read from `rowsC5`. -/
def emailsC5 : List PyString :=
  ["a.smith@x.ru".toList, "carol@x.ru".toList]

/-- The source group of the alias-retention scenario. -/
def aC5 : AdGroup :=
  ⟨some "g5".toList, some "T5".toList, some "t5@x.ru".toList, none⟩

/-- The tagged target group of the alias-retention scenario. -/
def gC5 : Y360Group :=
  ⟨"31".toList, "DDG;g5".toList, "T5".toList, [], []⟩

/-- Environment of the alias-retention scenario. -/
def envC5 : MemberEnv :=
  memberEnvAllOk (fun _ => some membersC5) (fun _ => some rowsC5)

/-- Directory user of the alias-collision scenario whose alias `robert`
names a source handle. -/
def uuC2 : Y360User := ⟨"1".toList, some "bob".toList, ["robert".toList]⟩

/-- Directory user whose alias equals `uuC2`'s primary nickname and
overwrites its index entry. -/
def vvC2 : Y360User := ⟨"2".toList, some "vic".toList, ["bob".toList]⟩

/-- The directory of the alias-collision scenario. -/
def usersC2 : List Y360User := [uuC2, vvC2]

/-- Current members of the alias-collision scenario: `uuC2` only. -/
def membersC2 : List Y360User := [uuC2]

/-- Source e-mail list of the alias-collision scenario. -/
def emailsC2 : List PyString := ["robert@x.ru".toList]

/-! ## Basic facts about the python-string primitives -/

theorem pyStartsWith_append (l t : PyString) : pyStartsWith l (l ++ t) = true := by
  rw [pyStartsWith, List.isPrefixOf_iff_prefix]
  exact List.prefix_append l t

theorem pyStartsWith_exists {p s : PyString} (h : pyStartsWith p s = true) :
    ∃ t, s = p ++ t := by
  rw [pyStartsWith, List.isPrefixOf_iff_prefix] at h
  obtain ⟨t, ht⟩ := h
  exact ⟨t, ht.symm⟩

theorem pySplitOnce_ddg (s : PyString) :
    pySplitOnce ';' (ddgTag ++ s) = some ("DDG".toList, s) := rfl

theorem adExtId_isEmpty (g : PyString) : (adExtId g).isEmpty = false := rfl

theorem adExtId_inj {a b : PyString} (h : adExtId a = adExtId b) : a = b :=
  List.append_cancel_left h

theorem pySetAdd_contains_mono {s : List PyString} {x y : PyString}
    (h : s.contains y = true) : (pySetAdd s x).contains y = true := by
  rw [List.elem_iff] at h ⊢
  unfold pySetAdd
  split
  · exact h
  · exact List.mem_append_left _ h

theorem pySetAdd_contains_self (s : List PyString) (x : PyString) :
    (pySetAdd s x).contains x = true := by
  rw [List.elem_iff]
  unfold pySetAdd
  split
  · rw [← List.elem_iff]; assumption
  · exact List.mem_append_right _ (List.mem_singleton.mpr rfl)

theorem pySetAdd_mem {s : List PyString} {x y : PyString}
    (h : y ∈ pySetAdd s x) : y ∈ s ∨ y = x := by
  unfold pySetAdd at h
  split at h
  · exact Or.inl h
  · rcases List.mem_append.mp h with h' | h'
    · exact Or.inl h'
    · exact Or.inr (List.mem_singleton.mp h')

theorem pySetAdd_mem_of {s : List PyString} {x y : PyString} (h : y ∈ s) :
    y ∈ pySetAdd s x := by
  unfold pySetAdd
  split
  · exact h
  · exact List.mem_append_left _ h

theorem pySetAdd_mem_self (s : List PyString) (x : PyString) :
    x ∈ pySetAdd s x := by
  have := pySetAdd_contains_self s x
  rwa [List.elem_iff] at this

/-! ## Facts about the group index `y360_groups_by_external_id` -/

theorem buildGroupIndex_mem {gs : List Y360Group} {k : PyString} {g : Y360Group}
    (h : buildGroupIndex gs k = some g) : g ∈ gs ∧ g.externalId = k := by
  suffices H : ∀ (l : List Y360Group) (m : PyString → Option Y360Group),
      (l.foldl (fun m g => if g.externalId.isEmpty then m
        else dictInsert m g.externalId g) m) k = some g →
      m k = some g ∨ (g ∈ l ∧ g.externalId = k) by
    rcases H gs (fun _ => none) h with h' | h'
    · exact absurd h' (by simp)
    · exact h'
  intro l
  induction l with
  | nil => intro m hm; exact Or.inl hm
  | cons a t ih =>
    intro m hm
    rcases ih _ hm with h' | h'
    · by_cases ha : a.externalId.isEmpty
      · simp [ha] at h'
        exact Or.inl h'
      · simp [ha, dictInsert] at h'
        split at h'
        · rename_i hk
          rw [Option.some_inj] at h'
          subst h'
          exact Or.inr ⟨List.mem_cons_self a t, hk.symm⟩
        · exact Or.inl h'
    · exact Or.inr ⟨List.mem_cons_of_mem a h'.1, h'.2⟩


/-- The last-write-wins dict returns the last matching element of the list. -/
theorem buildGroupIndex_getLast (gs : List Y360Group) (k : PyString)
    (hk : k ≠ []) :
    buildGroupIndex gs k = (gs.filter (fun g => g.externalId == k)).getLast? := by
  induction gs using List.reverseRecOn with
  | nil => rfl
  | append_singleton l a ih =>
    unfold buildGroupIndex at ih ⊢
    rw [List.foldl_append, List.filter_append]
    simp only [List.foldl_cons, List.foldl_nil, List.filter_cons, List.filter_nil]
    by_cases ha : a.externalId.isEmpty = true
    · have h0 : a.externalId = [] := List.isEmpty_iff.mp ha
      have hne : (a.externalId == k) = false := by
        rw [beq_eq_false_iff_ne, h0]
        exact fun hkk => hk hkk.symm
      rw [if_pos ha, hne]
      simp only [Bool.false_eq_true, if_false, List.append_nil]
      exact ih
    · rw [if_neg ha]
      by_cases hak : a.externalId = k
      · have hbeq : (a.externalId == k) = true := beq_iff_eq.mpr hak
        rw [hbeq]
        simp only [if_true]
        rw [dictInsert]
        rw [if_pos hak.symm]
        exact (List.getLast?_concat _).symm
      · have hne : (a.externalId == k) = false := beq_eq_false_iff_ne.mpr hak
        rw [hne]
        simp only [Bool.false_eq_true, if_false, List.append_nil]
        rw [dictInsert]
        rw [if_neg (fun hkk => hak hkk.symm)]
        exact ih

/-! ## Facts about `ad_object_guids` and `groups_to_delete` -/

theorem adGuidSet_contains_mono {ads : List AdGroup} {g : PyString}
    {acc : List PyString} (h : acc.contains g = true) :
    (ads.foldl (fun s a => if pyTruthy a.objectGUID then
      pySetAdd s (a.objectGUID.getD []) else s) acc).contains g = true := by
  induction ads generalizing acc with
  | nil => exact h
  | cons a t ih =>
    simp only [List.foldl_cons]
    apply ih
    split
    · exact pySetAdd_contains_mono h
    · exact h

theorem adGuidSet_contains_of {ads : List AdGroup} {ad : AdGroup}
    (h : ad ∈ ads) (ht : pyTruthy ad.objectGUID = true) :
    (adGuidSet ads).contains (ad.objectGUID.getD []) = true := by
  suffices H : ∀ (l : List AdGroup) (acc : List PyString), ad ∈ l →
      (l.foldl (fun s a => if pyTruthy a.objectGUID then
        pySetAdd s (a.objectGUID.getD []) else s) acc).contains
        (ad.objectGUID.getD []) = true from H ads [] h
  intro l
  induction l with
  | nil => intro acc h'; cases h'
  | cons a t ih =>
    intro acc h'
    rcases List.mem_cons.mp h' with rfl | h''
    · simp only [List.foldl_cons, ht, if_true]
      exact adGuidSet_contains_mono (pySetAdd_contains_self _ _)
    · simp only [List.foldl_cons]
      exact ih _ h''

theorem toDeleteList_mem {ads : List AdGroup} {ys : List Y360Group} {x : Y360Group} :
    x ∈ toDeleteList ads ys ↔ x ∈ ys ∧
      pyStartsWith ddgTag x.externalId = true ∧
      ∃ pre suf, pySplitOnce ';' x.externalId = some (pre, suf) ∧
        (adGuidSet ads).contains suf = false := by
  unfold toDeleteList
  suffices H : ∀ (l : List Y360Group) (acc : List Y360Group),
      x ∈ l.foldl (fun acc g =>
        if pyStartsWith ddgTag g.externalId then
          (match pySplitOnce ';' g.externalId with
            | none => acc
            | some (_, guid) =>
                if (adGuidSet ads).contains guid then acc else acc ++ [g])
        else acc) acc ↔
      x ∈ acc ∨ (x ∈ l ∧ pyStartsWith ddgTag x.externalId = true ∧
        ∃ pre suf, pySplitOnce ';' x.externalId = some (pre, suf) ∧
          (adGuidSet ads).contains suf = false) by
    rw [H ys []]
    simp
  intro l
  induction l with
  | nil => intro acc; simp
  | cons g t ih =>
    intro acc
    simp only [List.foldl_cons]
    rw [ih]
    have hstep : x ∈ (if pyStartsWith ddgTag g.externalId then
          (match pySplitOnce ';' g.externalId with
            | none => acc
            | some (_, guid) =>
                if (adGuidSet ads).contains guid then acc else acc ++ [g])
          else acc) ↔
        x ∈ acc ∨ (x = g ∧ pyStartsWith ddgTag g.externalId = true ∧
          ∃ pre suf, pySplitOnce ';' g.externalId = some (pre, suf) ∧
            (adGuidSet ads).contains suf = false) := by
      by_cases h1 : pyStartsWith ddgTag g.externalId = true
      · rw [if_pos h1]
        rcases h2 : pySplitOnce ';' g.externalId with _ | ⟨pre, suf⟩
        · simp [h2]
        · by_cases h3 : (adGuidSet ads).contains suf = true
          · simp only [h3, if_true]
            constructor
            · exact Or.inl
            · rintro (hx | ⟨rfl, hsw, pre2, suf2, hsp, hcf⟩)
              · exact hx
              · injection hsp with hpair
                rw [Prod.mk.injEq] at hpair
                obtain ⟨he1, he2⟩ := hpair
                subst he2
                rw [hcf] at h3
                exact absurd h3 (by simp)
          · rw [Bool.not_eq_true] at h3
            simp only [h3, Bool.false_eq_true, if_false]
            rw [List.mem_append, List.mem_singleton]
            constructor
            · rintro (hx | rfl)
              · exact Or.inl hx
              · refine Or.inr ⟨rfl, h1, ?_⟩
                exact ⟨pre, suf, rfl, h3⟩
            · rintro (hx | ⟨rfl, h⟩)
              · exact Or.inl hx
              · exact Or.inr rfl
      · rw [Bool.not_eq_true] at h1
        simp [h1]
    rw [hstep]
    constructor
    · rintro ((hx | ⟨rfl, hc⟩) | ⟨hxt, hc⟩)
      · exact Or.inl hx
      · exact Or.inr ⟨List.mem_cons_self _ _, hc⟩
      · exact Or.inr ⟨List.mem_cons_of_mem _ hxt, hc⟩
    · rintro (hx | ⟨hxm, hc⟩)
      · exact Or.inl (Or.inl hx)
      · rcases List.mem_cons.mp hxm with rfl | hxt
        · exact Or.inl (Or.inr ⟨rfl, hc⟩)
        · exact Or.inr ⟨hxt, hc⟩

theorem emitAds_append (index : PyString → Option Y360Group)
    (l1 l2 : List AdGroup) :
    emitAds index (l1 ++ l2) = emitAds index l1 ++ emitAds index l2 := by
  induction l1 with
  | nil => rfl
  | cons a t ih => simp [emitAds, ih]


/-- In live mode one ad-group iteration appends exactly its decided calls. -/
theorem processAdGroup_live_ops (env : RemoteEnv)
    (index : PyString → Option Y360Group) (s : GroupStats) (ops : List GroupOp)
    (ad : AdGroup) :
    (processAdGroup env false index (s, ops) ad).2 = ops ++ emitForAd index ad := by
  unfold processAdGroup emitForAd
  by_cases he : adEligible ad = true
  case neg =>
    rw [Bool.not_eq_true] at he
    simp [he]
  case pos =>
  rw [if_neg (by simp [he]), if_pos he]
  split
  · rename_i g heq
    simp only [ne_eq]
    by_cases hc : changesOf ad g = emptyPatch
    · rw [if_neg (show ¬¬changesOf ad g = emptyPatch by simp [hc]),
        if_neg (show ¬¬changesOf ad g = emptyPatch by simp [hc])]
      simp
    · rw [if_pos hc, if_pos hc]
      by_cases hp : env.patchOk g.gid (changesOf ad g) = true
      · rw [if_pos hp]
        rfl
      · rw [if_neg hp]
        rfl
  · by_cases hcr : env.createOk (payloadOf ad) = true
    · rw [if_pos hcr]
      rfl
    · rw [if_neg hcr]
      rfl

/-- In dry-run mode one ad-group iteration never invokes a remote call. -/
theorem processAdGroup_dry_ops (env : RemoteEnv)
    (index : PyString → Option Y360Group) (s : GroupStats) (ops : List GroupOp)
    (ad : AdGroup) :
    (processAdGroup env true index (s, ops) ad).2 = ops := by
  unfold processAdGroup
  by_cases he : adEligible ad = true
  case neg =>
    rw [Bool.not_eq_true] at he
    simp [he]
  case pos =>
  rw [if_neg (by simp [he])]
  split
  · rename_i g heq
    simp only [ne_eq]
    by_cases hc : changesOf ad g = emptyPatch
    · rw [if_neg (by simp [hc])]
    · rw [if_pos (by simp [hc])]
      rfl
  · rfl

/-- The whole ad-group loop in live mode appends exactly `emitAds`. -/
theorem adPhase_live_ops (env : RemoteEnv)
    (index : PyString → Option Y360Group) (ads : List AdGroup) :
    ∀ (s : GroupStats) (ops : List GroupOp),
    (ads.foldl (processAdGroup env false index) (s, ops)).2 =
      ops ++ emitAds index ads := by
  induction ads with
  | nil => intro s ops; simp [emitAds]
  | cons ad rest ih =>
    intro s ops
    rcases hstep : processAdGroup env false index (s, ops) ad with ⟨s1, ops1⟩
    rw [List.foldl_cons, emitAds, hstep, ih s1 ops1]
    have h2 := processAdGroup_live_ops env index s ops ad
    rw [hstep] at h2
    rw [show ((s1, ops1) : GroupStats × List GroupOp).2 = ops1 from rfl] at h2
    rw [h2, List.append_assoc]

/-- The whole ad-group loop in dry-run mode makes no remote call. -/
theorem adPhase_dry_ops (env : RemoteEnv)
    (index : PyString → Option Y360Group) (ads : List AdGroup) :
    ∀ (s : GroupStats) (ops : List GroupOp),
    (ads.foldl (processAdGroup env true index) (s, ops)).2 = ops := by
  induction ads with
  | nil => intro s ops; rfl
  | cons ad rest ih =>
    intro s ops
    rcases hstep : processAdGroup env true index (s, ops) ad with ⟨s1, ops1⟩
    rw [List.foldl_cons, hstep, ih s1 ops1]
    have h2 := processAdGroup_dry_ops env index s ops ad
    rw [hstep] at h2
    exact h2

/-- Characterisation of the calls decided by one ad-group iteration. -/
theorem emitForAd_mem {index : PyString → Option Y360Group} {ad : AdGroup}
    {op : GroupOp} (h : op ∈ emitForAd index ad) :
    adEligible ad = true ∧
      ((∃ g, index (keyOf ad) = some g ∧ changesOf ad g ≠ emptyPatch ∧
          op = GroupOp.patch g.gid (changesOf ad g)) ∨
        (index (keyOf ad) = none ∧ op = GroupOp.create (payloadOf ad))) := by
  unfold emitForAd at h
  by_cases he : adEligible ad = true
  case neg =>
    rw [Bool.not_eq_true] at he
    rw [he] at h
    simp at h
  case pos =>
  rw [if_pos he] at h
  refine ⟨he, ?_⟩
  rcases hidx : index (keyOf ad) with _ | g
  · rw [hidx] at h
    simp at h
    exact Or.inr ⟨rfl, h⟩
  · rw [hidx] at h
    by_cases hc : changesOf ad g = emptyPatch
    · simp [hc] at h
    · simp [hc] at h
      exact Or.inl ⟨g, rfl, hc, h⟩

/-- Characterisation of the calls decided by the whole ad-group loop. -/
theorem emitAds_mem {index : PyString → Option Y360Group} {ads : List AdGroup}
    {op : GroupOp} (h : op ∈ emitAds index ads) :
    ∃ ad ∈ ads, op ∈ emitForAd index ad := by
  induction ads with
  | nil => cases h
  | cons a rest ih =>
    rw [emitAds, List.mem_append] at h
    rcases h with h | h
    · exact ⟨a, List.mem_cons_self _ _, h⟩
    · obtain ⟨ad, hm, ho⟩ := ih h
      exact ⟨ad, List.mem_cons_of_mem _ hm, ho⟩

/-- One deletion iteration in live mode appends exactly its call. -/
theorem deleteStep_live_ops (env : RemoteEnv) (s : GroupStats)
    (ops : List GroupOp) (g : Y360Group) :
    (deleteStep env false (s, ops) g).2 = ops ++ [GroupOp.delete g.gid] := by
  unfold deleteStep
  by_cases hr : (env.deleteRes g.gid).1 ∧ (env.deleteRes g.gid).2
  · rw [if_neg (by simp), if_pos hr]
  · rw [if_neg (by simp), if_neg hr]

/-- The deletion phase in live mode appends exactly the delete calls of
`groups_to_delete`. -/
theorem deletePhase_live_ops (env : RemoteEnv) (ads : List AdGroup)
    (ys : List Y360Group) :
    ∀ (s : GroupStats) (ops : List GroupOp),
    (deletePhase env false ads ys (s, ops)).2 =
      ops ++ (toDeleteList ads ys).map (fun g => GroupOp.delete g.gid) := by
  unfold deletePhase
  induction toDeleteList ads ys with
  | nil => intro s ops; simp
  | cons g rest ih =>
    intro s ops
    rcases hstep : deleteStep env false (s, ops) g with ⟨s1, ops1⟩
    rw [List.foldl_cons, hstep, ih s1 ops1]
    have h2 := deleteStep_live_ops env s ops g
    rw [hstep] at h2
    rw [show ((s1, ops1) : GroupStats × List GroupOp).2 = ops1 from rfl] at h2
    rw [h2, List.map_cons, List.append_assoc]
    rfl

/-- The deletion phase in dry-run mode makes no remote call. -/
theorem deletePhase_dry_ops (env : RemoteEnv) (ads : List AdGroup)
    (ys : List Y360Group) :
    ∀ (s : GroupStats) (ops : List GroupOp),
    (deletePhase env true ads ys (s, ops)).2 = ops := by
  unfold deletePhase
  induction toDeleteList ads ys with
  | nil => intro s ops; rfl
  | cons g rest ih =>
    intro s ops
    rw [List.foldl_cons]
    rw [show deleteStep env true (s, ops) g =
      ({ s with deleted_count := s.deleted_count + 1 }, ops) from rfl]
    exact ih _ ops

/-- A live run of the group sync invokes exactly the ad-phase calls followed
by the delete calls (when the source list is nonempty). -/
theorem sync_live_ops (env : RemoteEnv) (ads : List AdGroup)
    (ys : List Y360Group) (h : ads.isEmpty = false) :
    (sync_ad_groups_to_y360 env false ads ys).2.2 =
      emitAds (buildGroupIndex ys) ads ++
        (toDeleteList ads ys).map (fun g => GroupOp.delete g.gid) := by
  unfold sync_ad_groups_to_y360
  rw [if_neg (by simp [h])]
  rcases hfold : ads.foldl (processAdGroup env false (buildGroupIndex ys))
      ({ groupStats0 with
          ad_groups_count := ads.length
          y360_groups_count := ys.length }, []) with ⟨s1, ops1⟩
  have h1 := adPhase_live_ops env (buildGroupIndex ys) ads
    { groupStats0 with
        ad_groups_count := ads.length
        y360_groups_count := ys.length } []
  rw [hfold] at h1
  rw [show ((s1, ops1) : GroupStats × List GroupOp).2 = ops1 from rfl] at h1
  rw [List.nil_append] at h1
  have h2 := deletePhase_live_ops env ads ys s1 ops1
  simp only [hfold]
  rw [h2, h1]

/-- A dry run of the group sync invokes no remote call at all. -/
theorem sync_dry_ops (env : RemoteEnv) (ads : List AdGroup)
    (ys : List Y360Group) :
    (sync_ad_groups_to_y360 env true ads ys).2.2 = [] := by
  unfold sync_ad_groups_to_y360
  by_cases h : ads.isEmpty = true
  · rw [if_pos h]
  · rw [Bool.not_eq_true] at h
    rw [if_neg (by simp [h])]
    rcases hfold : ads.foldl (processAdGroup env true (buildGroupIndex ys))
        ({ groupStats0 with
            ad_groups_count := ads.length
            y360_groups_count := ys.length }, []) with ⟨s1, ops1⟩
    have h1 := adPhase_dry_ops env (buildGroupIndex ys) ads
      { groupStats0 with
          ad_groups_count := ads.length
          y360_groups_count := ys.length } []
    rw [hfold] at h1
    have h2 := deletePhase_dry_ops env ads ys s1 ops1
    simp only [hfold]
    rw [h2]
    exact h1

/-- Applying the computed patch makes the diff empty. -/
theorem computeChanges_applyPatch (dn : PyString) (el : Option PyString)
    (ed : PyString) (g : Y360Group) :
    computeChanges dn el ed (applyPatch (computeChanges dn el ed g) g) =
      emptyPatch := by
  unfold computeChanges applyPatch emptyPatch
  rcases el with _ | l
  · by_cases hn : g.name = dn <;> by_cases hd : g.description = ed <;>
      simp [hn, hd]
  · by_cases hle : l.isEmpty = true
    · by_cases hn : g.name = dn <;> by_cases hd : g.description = ed <;>
        simp [hn, hd, hle]
    · by_cases hn : g.name = dn <;> by_cases hd : g.description = ed <;>
        by_cases hl : g.label = l <;> simp [hn, hd, hl, hle]

/-- The diff of an eligible source group against its own patched match. -/
theorem changesOf_applyPatch (ad : AdGroup) (g : Y360Group) :
    changesOf ad (applyPatch (changesOf ad g) g) = emptyPatch := by
  unfold changesOf
  exact computeChanges_applyPatch _ _ _ g

/-- The diff of an eligible source group against the group the service
creates from its payload is empty. -/
theorem changesOf_mkCreated (ad : AdGroup) (i : PyString) :
    changesOf ad (mkCreated (payloadOf ad) i) = emptyPatch := by
  unfold changesOf computeChanges mkCreated payloadOf emptyPatch expectedLabel
    expectedDescription keyOf
  by_cases hm : '@' ∈ ad.mail.getD []
  · by_cases hle : (localPart (ad.mail.getD [])).isEmpty = true
    · rcases hd : ad.description with _ | d
      · simp [hm, pyTruthy, hle]
      · by_cases hde : d.isEmpty = true
        · simp [hm, hd, pyTruthy, hde, hle]
        · simp [hm, hd, pyTruthy, hde, hle]
    · rcases hd : ad.description with _ | d
      · simp [hm, pyTruthy, hle]
      · by_cases hde : d.isEmpty = true
        · simp [hm, hd, pyTruthy, hde, hle]
        · simp [hm, hd, pyTruthy, hde, hle]
  · rcases hd : ad.description with _ | d
    · simp [hm, pyTruthy]
    · by_cases hde : d.isEmpty = true
      · simp [hm, hd, pyTruthy, hde]
      · simp [hm, hd, pyTruthy, hde]

theorem patchIf_gid (i : PyString) (p : Patch) (g : Y360Group) :
    (patchIf i p g).gid = g.gid := by
  unfold patchIf applyPatch
  split <;> rfl

theorem patchIf_externalId (i : PyString) (p : Patch) (g : Y360Group) :
    (patchIf i p g).externalId = g.externalId := by
  unfold patchIf applyPatch
  split <;> rfl

theorem patchIf_of_ne {i : PyString} {g : Y360Group} (p : Patch)
    (h : g.gid ≠ i) : patchIf i p g = g := by
  unfold patchIf
  rw [if_neg h]

/-- Applying a block of delete calls filters out the targeted ids. -/
theorem applyOps_deletes (fresh : Nat → PyString) (tl : List Y360Group) :
    ∀ (l : List Y360Group) (n : Nat),
    (tl.map (fun g => GroupOp.delete g.gid)).foldl (applyOp fresh) (l, n) =
      (l.filter (fun x => !((tl.map (fun g => g.gid)).contains x.gid)), n) := by
  induction tl with
  | nil => intro l n; simp
  | cons g0 rest ih =>
    intro l n
    simp only [List.map_cons, List.foldl_cons]
    rw [show applyOp fresh (l, n) (GroupOp.delete g0.gid) =
      (l.filter (fun x => !(x.gid == g0.gid)), n) from rfl]
    rw [ih]
    congr 1
    rw [List.filter_filter]
    apply List.filter_congr
    intro x _
    rw [List.contains_cons]
    simp only [Bool.not_or, Bool.and_comm]

theorem adEligible_split {ad : AdGroup} (h : adEligible ad = true) :
    pyTruthy ad.objectGUID = true ∧ pyTruthy ad.displayName = true ∧
      pyTruthy ad.mail = true := by
  unfold adEligible at h
  simp only [Bool.and_eq_true] at h
  exact ⟨h.1.1, h.1.2, h.2⟩

theorem gid_inj {ys : List Y360Group} (H2 : (ys.map Y360Group.gid).Nodup)
    {a b : Y360Group} (ha : a ∈ ys) (hb : b ∈ ys) (h : a.gid = b.gid) :
    a = b :=
  List.inj_on_of_nodup_map H2 ha hb h

theorem keyOf_inj {a b : AdGroup} (h : keyOf a = keyOf b) :
    a.objectGUID.getD [] = b.objectGUID.getD [] :=
  adExtId_inj h

theorem adGuidList_append (l1 l2 : List AdGroup) :
    adGuidList (l1 ++ l2) = adGuidList l1 ++ adGuidList l2 :=
  List.filterMap_append l1 l2 _

theorem adGuidList_mem_of {ads : List AdGroup} {ad : AdGroup} (h : ad ∈ ads)
    (ht : pyTruthy ad.objectGUID = true) :
    (ad.objectGUID.getD []) ∈ adGuidList ads :=
  List.mem_filterMap.mpr ⟨ad, h, by rw [ht, if_pos rfl]⟩

/-- Uniqueness of source guids: the last entry's guid differs from every
earlier truthy guid. -/
theorem keyOf_ne_of_nodup {l : List AdGroup} {ad : AdGroup}
    (H : (adGuidList (l ++ [ad])).Nodup) (had : pyTruthy ad.objectGUID = true)
    {ad' : AdGroup} (h' : ad' ∈ l) (ht' : pyTruthy ad'.objectGUID = true) :
    keyOf ad' ≠ keyOf ad := by
  intro hk
  have hg : ad'.objectGUID.getD [] = ad.objectGUID.getD [] := keyOf_inj hk
  rw [adGuidList_append] at H
  rw [List.nodup_append] at H
  have h1 : (ad'.objectGUID.getD []) ∈ adGuidList l := adGuidList_mem_of h' ht'
  have h2 : (ad.objectGUID.getD []) ∈ adGuidList [ad] :=
    adGuidList_mem_of (List.mem_singleton.mpr rfl) had
  rw [← hg] at h2
  exact H.2.2 h1 h2

theorem adGuidList_nodup_of_append {l1 l2 : List AdGroup}
    (H : (adGuidList (l1 ++ l2)).Nodup) : (adGuidList l1).Nodup := by
  rw [adGuidList_append, List.nodup_append] at H
  exact H.1

/-- Normal form of the target state after applying the ad-phase calls of a
live run: the original groups transformed by a patch function, followed by
the created groups, together with the facts needed for idempotence. -/
theorem adPhase_apply_normal_form (fresh : Nat → PyString)
    (ys : List Y360Group) (H2 : (ys.map Y360Group.gid).Nodup)
    (H3 : ∀ m, fresh m ∉ ys.map Y360Group.gid) :
    ∀ ads : List AdGroup, (adGuidList ads).Nodup →
    ∃ (F : Y360Group → Y360Group) (created : List Y360Group) (n : Nat),
      (emitAds (buildGroupIndex ys) ads).foldl (applyOp fresh) (ys, 0) =
        (ys.map F ++ created, n) ∧
      (∀ x, (F x).gid = x.gid ∧ (F x).externalId = x.externalId) ∧
      (∀ c ∈ created, ∃ ad m, ad ∈ ads ∧ adEligible ad = true ∧
          buildGroupIndex ys (keyOf ad) = none ∧
          c = mkCreated (payloadOf ad) (fresh m)) ∧
      (∀ x ∈ ys, (∀ ad ∈ ads, adEligible ad = true →
          buildGroupIndex ys (keyOf ad) ≠ some x) → F x = x) ∧
      (∀ ad ∈ ads, adEligible ad = true →
        ∀ g, buildGroupIndex ys (keyOf ad) = some g →
          F g = if changesOf ad g = emptyPatch then g
                else applyPatch (changesOf ad g) g) ∧
      (∀ ad ∈ ads, adEligible ad = true →
        buildGroupIndex ys (keyOf ad) = none →
          ∃ m, created.filter (fun c => c.externalId == keyOf ad) =
            [mkCreated (payloadOf ad) (fresh m)]) := by
  intro ads
  induction ads using List.reverseRecOn with
  | nil =>
    intro _
    refine ⟨id, [], 0, ?_, ?_, ?_, ?_, ?_, ?_⟩
    · simp [emitAds]
    · intro x; exact ⟨rfl, rfl⟩
    · intro c hc; cases hc
    · intro x _ _; rfl
    · intro ad hmem; cases hmem
    · intro ad hmem; cases hmem
  | append_singleton l ad ih =>
    intro H
    obtain ⟨F, created, n, heq, ha, hb, hc, hm, hd⟩ :=
      ih (adGuidList_nodup_of_append H)
    rw [emitAds_append, List.foldl_append, heq]
    by_cases he : adEligible ad = true
    case neg =>
      rw [Bool.not_eq_true] at he
      have hemit : emitForAd (buildGroupIndex ys) ad = [] := by
        unfold emitForAd; rw [he]; rfl
      rw [show emitAds (buildGroupIndex ys) [ad] =
        emitForAd (buildGroupIndex ys) ad from by simp [emitAds], hemit]
      refine ⟨F, created, n, rfl, ha, ?_, ?_, ?_, ?_⟩
      · intro c hcm
        obtain ⟨ad', m, hmem, h1, h2, h3⟩ := hb c hcm
        exact ⟨ad', m, List.mem_append_left _ hmem, h1, h2, h3⟩
      · intro x hx hunt
        exact hc x hx (fun a hamem h1 =>
          hunt a (List.mem_append_left _ hamem) h1)
      · intro ad' hmem h1 g hg
        rcases List.mem_append.mp hmem with hmem' | hmem'
        · exact hm ad' hmem' h1 g hg
        · rw [List.mem_singleton] at hmem'
          subst hmem'
          rw [h1] at he
          cases he
      · intro ad' hmem h1 h2
        rcases List.mem_append.mp hmem with hmem' | hmem'
        · exact hd ad' hmem' h1 h2
        · rw [List.mem_singleton] at hmem'
          subst hmem'
          rw [h1] at he
          cases he
    case pos =>
    have hkey_ne : ∀ ad' ∈ l, adEligible ad' = true → keyOf ad' ≠ keyOf ad :=
      fun ad' h' he' => keyOf_ne_of_nodup H (adEligible_split he).1 h'
        (adEligible_split he').1
    -- untargeted by the prefix: the matched group of `ad` is not matched by any
    -- eligible entry of `l`
    have huntarget : ∀ g : Y360Group, buildGroupIndex ys (keyOf ad) = some g →
        ∀ ad' ∈ l, adEligible ad' = true →
          buildGroupIndex ys (keyOf ad') ≠ some g := by
      intro g hg ad' h' he' hg'
      have e1 := (buildGroupIndex_mem hg).2
      have e2 := (buildGroupIndex_mem hg').2
      exact hkey_ne ad' h' he' (e2.symm.trans e1)
    rcases hidx : buildGroupIndex ys (keyOf ad) with _ | g
    · -- unmatched: one creation
      have hemit : emitForAd (buildGroupIndex ys) ad =
          [GroupOp.create (payloadOf ad)] := by
        unfold emitForAd; rw [if_pos he, hidx]
      rw [show emitAds (buildGroupIndex ys) [ad] =
        emitForAd (buildGroupIndex ys) ad from by simp [emitAds], hemit]
      rw [show ([GroupOp.create (payloadOf ad)]).foldl (applyOp fresh)
          (ys.map F ++ created, n) =
        ((ys.map F ++ created) ++ [mkCreated (payloadOf ad) (fresh n)], n + 1)
          from rfl]
      rw [List.append_assoc]
      refine ⟨F, created ++ [mkCreated (payloadOf ad) (fresh n)], n + 1,
        rfl, ha, ?_, ?_, ?_, ?_⟩
      · intro c hcm
        rcases List.mem_append.mp hcm with hcm' | hcm'
        · obtain ⟨ad', m, hmem, h1, h2, h3⟩ := hb c hcm'
          exact ⟨ad', m, List.mem_append_left _ hmem, h1, h2, h3⟩
        · rw [List.mem_singleton] at hcm'
          exact ⟨ad, n, List.mem_append_right _ (List.mem_singleton.mpr rfl),
            he, hidx, hcm'⟩
      · intro x hx hunt
        exact hc x hx (fun a hamem h1 =>
          hunt a (List.mem_append_left _ hamem) h1)
      · intro ad' hmem h1 g hg
        rcases List.mem_append.mp hmem with hmem' | hmem'
        · exact hm ad' hmem' h1 g hg
        · rw [List.mem_singleton] at hmem'
          subst hmem'
          rw [hidx] at hg
          cases hg
      · intro ad' hmem h1 h2
        rw [List.filter_append]
        rcases List.mem_append.mp hmem with hmem' | hmem'
        · obtain ⟨m, hfil⟩ := hd ad' hmem' h1 h2
          refine ⟨m, ?_⟩
          rw [hfil]
          have hne : ((mkCreated (payloadOf ad) (fresh n)).externalId ==
              keyOf ad') = false := by
            rw [beq_eq_false_iff_ne]
            rw [show (mkCreated (payloadOf ad) (fresh n)).externalId =
              keyOf ad from rfl]
            exact fun hk => hkey_ne ad' hmem' h1 hk.symm
          simp [hne]
        · rw [List.mem_singleton] at hmem'
          subst hmem'
          have hfil0 : created.filter
              (fun c => c.externalId == keyOf ad') = [] := by
            rw [List.filter_eq_nil_iff]
            intro c hcm
            obtain ⟨ad'', m, hmem'', h1'', h2'', h3''⟩ := hb c hcm
            rw [h3'']
            rw [show (mkCreated (payloadOf ad'') (fresh m)).externalId =
              keyOf ad'' from rfl]
            simp only [beq_iff_eq]
            exact hkey_ne ad'' hmem'' h1''
          rw [hfil0]
          have hself : ((mkCreated (payloadOf ad') (fresh n)).externalId ==
              keyOf ad') = true := by
            rw [beq_iff_eq]
            rfl
          refine ⟨n, ?_⟩
          simp [hself]
    · -- matched
      by_cases hch : changesOf ad g = emptyPatch
      · -- nothing to patch
        have hemit : emitForAd (buildGroupIndex ys) ad = [] := by
          unfold emitForAd
          rw [if_pos he, hidx]
          simp [hch]
        rw [show emitAds (buildGroupIndex ys) [ad] =
          emitForAd (buildGroupIndex ys) ad from by simp [emitAds], hemit]
        refine ⟨F, created, n, rfl, ha, ?_, ?_, ?_, ?_⟩
        · intro c hcm
          obtain ⟨ad', m, hmem, h1, h2, h3⟩ := hb c hcm
          exact ⟨ad', m, List.mem_append_left _ hmem, h1, h2, h3⟩
        · intro x hx hunt
          exact hc x hx (fun a hamem h1 =>
            hunt a (List.mem_append_left _ hamem) h1)
        · intro ad' hmem h1 g' hg'
          rcases List.mem_append.mp hmem with hmem' | hmem'
          · exact hm ad' hmem' h1 g' hg'
          · rw [List.mem_singleton] at hmem'
            subst hmem'
            rw [hidx] at hg'
            rw [Option.some_inj] at hg'
            subst hg'
            rw [if_pos hch]
            have hgys := (buildGroupIndex_mem hidx).1
            exact hc g hgys (huntarget g hidx)
        · intro ad' hmem h1 h2
          rcases List.mem_append.mp hmem with hmem' | hmem'
          · exact hd ad' hmem' h1 h2
          · rw [List.mem_singleton] at hmem'
            subst hmem'
            rw [h2] at hidx
            cases hidx
      · -- one patch call
        have hemit : emitForAd (buildGroupIndex ys) ad =
            [GroupOp.patch g.gid (changesOf ad g)] := by
          unfold emitForAd
          rw [if_pos he, hidx]
          simp [hch]
        rw [show emitAds (buildGroupIndex ys) [ad] =
          emitForAd (buildGroupIndex ys) ad from by simp [emitAds], hemit]
        rw [show ([GroupOp.patch g.gid (changesOf ad g)]).foldl (applyOp fresh)
            (ys.map F ++ created, n) =
          ((ys.map F ++ created).map (patchIf g.gid (changesOf ad g)), n)
            from rfl]
        have hgys := (buildGroupIndex_mem hidx).1
        have hcreated_fix : created.map (patchIf g.gid (changesOf ad g)) =
            created := by
          conv_rhs => rw [← List.map_id created]
          apply List.map_congr_left
          intro c hcm
          obtain ⟨ad', m, hmem, h1, h2, h3⟩ := hb c hcm
          apply patchIf_of_ne
          rw [h3]
          rw [show (mkCreated (payloadOf ad') (fresh m)).gid = fresh m from rfl]
          intro hgid
          exact H3 m (hgid ▸ List.mem_map_of_mem Y360Group.gid hgys)
        rw [List.map_append, hcreated_fix, List.map_map]
        refine ⟨(patchIf g.gid (changesOf ad g)) ∘ F, created, n, rfl,
          ?_, ?_, ?_, ?_, ?_⟩
        · intro x
          refine ⟨?_, ?_⟩
          · rw [Function.comp_apply, patchIf_gid]
            exact (ha x).1
          · rw [Function.comp_apply, patchIf_externalId]
            exact (ha x).2
        · intro c hcm
          obtain ⟨ad', m, hmem, h1, h2, h3⟩ := hb c hcm
          exact ⟨ad', m, List.mem_append_left _ hmem, h1, h2, h3⟩
        · intro x hx hunt
          rw [Function.comp_apply]
          rw [hc x hx (fun a hamem h1 =>
            hunt a (List.mem_append_left _ hamem) h1)]
          apply patchIf_of_ne
          intro hgid
          have : x = g := gid_inj H2 hx hgys hgid
          subst this
          exact hunt ad (List.mem_append_right _ (List.mem_singleton.mpr rfl))
            he hidx
        · intro ad' hmem h1 g' hg'
          rcases List.mem_append.mp hmem with hmem' | hmem'
          · rw [Function.comp_apply, hm ad' hmem' h1 g' hg']
            have hg'ys := (buildGroupIndex_mem hg').1
            have hgne : g' ≠ g := by
              intro hgg
              subst hgg
              exact huntarget g' hidx ad' hmem' h1 hg'
            by_cases hch' : changesOf ad' g' = emptyPatch
            · simp only [hch', if_pos rfl]
              apply patchIf_of_ne
              intro hgid
              exact hgne (gid_inj H2 hg'ys hgys hgid)
            · simp only [if_neg hch']
              apply patchIf_of_ne
              rw [show (applyPatch (changesOf ad' g') g').gid = g'.gid from rfl]
              intro hgid
              exact hgne (gid_inj H2 hg'ys hgys hgid)
          · rw [List.mem_singleton] at hmem'
            subst hmem'
            rw [hidx] at hg'
            rw [Option.some_inj] at hg'
            subst hg'
            rw [Function.comp_apply]
            rw [hc g hgys (huntarget g hidx)]
            rw [if_neg hch]
            unfold patchIf
            rw [if_pos rfl]
        · intro ad' hmem h1 h2
          rcases List.mem_append.mp hmem with hmem' | hmem'
          · exact hd ad' hmem' h1 h2
          · rw [List.mem_singleton] at hmem'
            subst hmem'
            rw [h2] at hidx
            cases hidx

theorem filter_comm' (p q : Y360Group → Bool) (l : List Y360Group) :
    (l.filter p).filter q = (l.filter q).filter p := by
  rw [List.filter_filter, List.filter_filter]
  exact List.filter_congr (fun a _ => Bool.and_comm _ _)

/-- If the per-entity decision of run 2 is "in sync", the mutation counters
and the trace do not move. -/
theorem processAdGroup_counts (env : RemoteEnv) (dry : Bool)
    (index : PyString → Option Y360Group) (s : GroupStats) (ops : List GroupOp)
    (ad : AdGroup)
    (h : adEligible ad = true →
      ∃ g, index (keyOf ad) = some g ∧ changesOf ad g = emptyPatch) :
    (processAdGroup env dry index (s, ops) ad).1.created_count =
        s.created_count ∧
      (processAdGroup env dry index (s, ops) ad).1.updated_count =
        s.updated_count ∧
      (processAdGroup env dry index (s, ops) ad).1.deleted_count =
        s.deleted_count ∧
      (processAdGroup env dry index (s, ops) ad).2 = ops := by
  unfold processAdGroup
  by_cases he : adEligible ad = true
  case neg =>
    rw [Bool.not_eq_true] at he
    simp [he]
  case pos =>
  obtain ⟨g, hg, hch⟩ := h he
  rw [if_neg (by simp [he]), hg]
  simp [hch]

/-- Fold version of `processAdGroup_counts`. -/
theorem adPhase_counts (env : RemoteEnv) (dry : Bool)
    (index : PyString → Option Y360Group) :
    ∀ (ads : List AdGroup) (s : GroupStats) (ops : List GroupOp),
    (∀ ad ∈ ads, adEligible ad = true →
      ∃ g, index (keyOf ad) = some g ∧ changesOf ad g = emptyPatch) →
    (ads.foldl (processAdGroup env dry index) (s, ops)).1.created_count =
        s.created_count ∧
      (ads.foldl (processAdGroup env dry index) (s, ops)).1.updated_count =
        s.updated_count ∧
      (ads.foldl (processAdGroup env dry index) (s, ops)).1.deleted_count =
        s.deleted_count := by
  intro ads
  induction ads with
  | nil => intro s ops _; exact ⟨rfl, rfl, rfl⟩
  | cons ad rest ih =>
    intro s ops h
    rcases hstep : processAdGroup env dry index (s, ops) ad with ⟨s1, ops1⟩
    have hstep2 := processAdGroup_counts env dry index s ops ad
      (h ad (List.mem_cons_self _ _))
    rw [hstep] at hstep2
    have ih2 := ih s1 ops1 (fun a ha => h a (List.mem_cons_of_mem _ ha))
    rw [List.foldl_cons, hstep]
    refine ⟨?_, ?_, ?_⟩
    · rw [ih2.1]; exact hstep2.1
    · rw [ih2.2.1]; exact hstep2.2.1
    · rw [ih2.2.2]; exact hstep2.2.2.1

/-- With nothing to delete, the deletion phase is the identity. -/
theorem deletePhase_of_nil (env : RemoteEnv) (dry : Bool) (ads : List AdGroup)
    (ys : List Y360Group) (acc : GroupStats × List GroupOp)
    (h : toDeleteList ads ys = []) :
    deletePhase env dry ads ys acc = acc := by
  unfold deletePhase
  rw [h]
  rfl

theorem keyOf_ne_nil (ad : AdGroup) : keyOf ad ≠ [] := by
  unfold keyOf adExtId ddgTag
  simp

theorem mem_toDeleteList_of_gid {ads : List AdGroup} {ys : List Y360Group}
    (H2 : (ys.map Y360Group.gid).Nodup) {y : Y360Group} (hy : y ∈ ys)
    (hgid : ((toDeleteList ads ys).map (fun g => g.gid)).contains y.gid = true) :
    y ∈ toDeleteList ads ys := by
  rw [List.elem_iff, List.mem_map] at hgid
  obtain ⟨d, hd, hdg⟩ := hgid
  have hdys : d ∈ ys := (toDeleteList_mem.mp hd).1
  have : d = y := gid_inj H2 hdys hy hdg
  exact this ▸ hd

/-- After applying the trace of a live run, every eligible source group is
matched with an in-sync target group, and the delete scan finds nothing. -/
theorem applied_state_in_sync (env : RemoteEnv) (fresh : Nat → PyString)
    (ads : List AdGroup) (ys : List Y360Group)
    (H1 : (adGuidList ads).Nodup)
    (H2 : (ys.map Y360Group.gid).Nodup)
    (H3 : ∀ m, fresh m ∉ ys.map Y360Group.gid)
    (hne : ads.isEmpty = false) :
    (∀ ad ∈ ads, adEligible ad = true →
      ∃ g2, buildGroupIndex
          (applyOps fresh ys (sync_ad_groups_to_y360 env false ads ys).2.2)
          (keyOf ad) = some g2 ∧ changesOf ad g2 = emptyPatch) ∧
    toDeleteList ads
      (applyOps fresh ys (sync_ad_groups_to_y360 env false ads ys).2.2) = [] := by
  obtain ⟨F, created, n, heq, ha, hb, hc, hm, hd⟩ :=
    adPhase_apply_normal_form fresh ys H2 H3 ads H1
  have hys2 : applyOps fresh ys (sync_ad_groups_to_y360 env false ads ys).2.2 =
      (ys.map F ++ created).filter
        (fun x =>
          !(((toDeleteList ads ys).map (fun g => g.gid)).contains x.gid)) := by
    rw [sync_live_ops env ads ys hne]
    unfold applyOps
    rw [List.foldl_append, heq, applyOps_deletes]
  -- survival of untargeted groups
  have hsurvF : ∀ y ∈ ys, y ∉ toDeleteList ads ys →
      (!(((toDeleteList ads ys).map (fun g => g.gid)).contains (F y).gid)) =
        true := by
    intro y hy hnd
    rw [(ha y).1]
    by_cases hcon :
        ((toDeleteList ads ys).map (fun g => g.gid)).contains y.gid = true
    · exact absurd (mem_toDeleteList_of_gid H2 hy hcon) hnd
    · rw [Bool.not_eq_true] at hcon
      rw [hcon]
      rfl
  have hsurvC : ∀ c ∈ created,
      (!(((toDeleteList ads ys).map (fun g => g.gid)).contains c.gid)) =
        true := by
    intro c hcm
    obtain ⟨ad', m, _, _, _, h3⟩ := hb c hcm
    by_cases hcon :
        ((toDeleteList ads ys).map (fun g => g.gid)).contains c.gid = true
    · exfalso
      rw [List.elem_iff, List.mem_map] at hcon
      obtain ⟨dd, hdd, hddg⟩ := hcon
      have hdys : dd ∈ ys := (toDeleteList_mem.mp hdd).1
      apply H3 m
      rw [List.mem_map]
      refine ⟨dd, hdys, ?_⟩
      rw [hddg, h3]
      rfl
    · rw [Bool.not_eq_true] at hcon
      rw [hcon]
      rfl
  -- groups whose externalId is a matched key are never delete candidates
  have hkey_safe : ∀ ad ∈ ads, adEligible ad = true → ∀ y : Y360Group,
      y.externalId = keyOf ad → y ∉ toDeleteList ads ys := by
    intro ad hmem he y hext hyd
    obtain ⟨_, _, pre, suf, hsp, hcf⟩ := toDeleteList_mem.mp hyd
    rw [hext] at hsp
    rw [show keyOf ad = ddgTag ++ (ad.objectGUID.getD []) from rfl] at hsp
    rw [pySplitOnce_ddg] at hsp
    rw [Option.some_inj, Prod.mk.injEq] at hsp
    have hsuf : suf = ad.objectGUID.getD [] := hsp.2.symm
    subst hsuf
    rw [adGuidSet_contains_of hmem (adEligible_split he).1] at hcf
    cases hcf
  -- the external-id fibre of the applied state over a matched key
  have hfibre : ∀ ad ∈ ads, adEligible ad = true →
      ((ys.map F ++ created).filter
        (fun x =>
          !(((toDeleteList ads ys).map (fun g => g.gid)).contains x.gid))).filter
        (fun x => x.externalId == keyOf ad) =
      ((ys.filter (fun x => x.externalId == keyOf ad)).map F) ++
        (created.filter (fun c => c.externalId == keyOf ad)) := by
    intro ad hmem he
    rw [List.filter_append, List.filter_append]
    congr 1
    · rw [filter_comm']
      rw [List.map_filter]
      have hcongr : ys.filter ((fun x => x.externalId == keyOf ad) ∘ F) =
          ys.filter (fun x => x.externalId == keyOf ad) := by
        apply List.filter_congr
        intro y _
        rw [Function.comp_apply, (ha y).2]
      rw [hcongr]
      apply List.filter_eq_self.mpr
      intro x hx
      rw [List.mem_map] at hx
      obtain ⟨y, hy, rfl⟩ := hx
      rw [List.mem_filter] at hy
      have hyext : y.externalId = keyOf ad := by
        have := hy.2
        rwa [beq_iff_eq] at this
      exact hsurvF y hy.1 (hkey_safe ad hmem he y hyext)
    · rw [filter_comm']
      apply List.filter_eq_self.mpr
      intro c hcm
      rw [List.mem_filter] at hcm
      exact hsurvC c hcm.1
  refine ⟨?_, ?_⟩
  · -- every eligible source group is matched and in sync
    intro ad hmem he
    rw [hys2]
    rw [buildGroupIndex_getLast _ _ (keyOf_ne_nil ad)]
    rw [hfibre ad hmem he]
    rcases hidx : buildGroupIndex ys (keyOf ad) with _ | g
    · -- run 1 created the group
      have hysnil : ys.filter (fun x => x.externalId == keyOf ad) = [] := by
        have := buildGroupIndex_getLast ys (keyOf ad) (keyOf_ne_nil ad)
        rw [hidx] at this
        exact List.getLast?_eq_none_iff.mp this.symm
      obtain ⟨m, hfil⟩ := hd ad hmem he hidx
      rw [hysnil, hfil]
      refine ⟨mkCreated (payloadOf ad) (fresh m), ?_, changesOf_mkCreated ad _⟩
      rfl
    · -- run 1 patched (or left alone) the matched group
      have hcreatednil :
          created.filter (fun c => c.externalId == keyOf ad) = [] := by
        rw [List.filter_eq_nil_iff]
        intro c hcm
        obtain ⟨ad', m, hmem', he', hidx', h3⟩ := hb c hcm
        rw [h3]
        rw [show (mkCreated (payloadOf ad') (fresh m)).externalId =
          keyOf ad' from rfl]
        simp only [beq_iff_eq]
        intro hkk
        rw [hkk] at hidx'
        rw [hidx'] at hidx
        cases hidx
      have hlast := buildGroupIndex_getLast ys (keyOf ad) (keyOf_ne_nil ad)
      rw [hidx] at hlast
      obtain ⟨t, ht⟩ := List.getLast?_eq_some_iff.mp hlast.symm
      rw [hcreatednil, List.append_nil, ht, List.map_append]
      rw [show (([g] : List Y360Group).map F) = [F g] from rfl]
      refine ⟨F g, List.getLast?_concat _, ?_⟩
      rw [hm ad hmem he g hidx]
      by_cases hch : changesOf ad g = emptyPatch
      · rw [if_pos hch]
        exact hch
      · rw [if_neg hch]
        exact changesOf_applyPatch ad g
  · -- nothing is left to delete
    rw [hys2]
    rw [List.eq_nil_iff_forall_not_mem]
    intro x hx
    obtain ⟨hxmem, hsw, pre, suf, hsp, hcf⟩ := toDeleteList_mem.mp hx
    rw [List.mem_filter] at hxmem
    obtain ⟨hxin, hxsurv⟩ := hxmem
    rcases List.mem_append.mp hxin with hxF | hxC
    · rw [List.mem_map] at hxF
      obtain ⟨y, hy, rfl⟩ := hxF
      have hytd : y ∈ toDeleteList ads ys := by
        rw [toDeleteList_mem]
        refine ⟨hy, ?_, pre, suf, ?_, hcf⟩
        · rw [← (ha y).2]; exact hsw
        · rw [← (ha y).2]; exact hsp
      have : ((toDeleteList ads ys).map (fun g => g.gid)).contains
          (F y).gid = true := by
        rw [List.elem_iff, List.mem_map]
        exact ⟨y, hytd, ((ha y).1).symm⟩
      rw [this] at hxsurv
      cases hxsurv
    · obtain ⟨ad', m, hmem', he', _, h3⟩ := hb x hxC
      rw [h3] at hsp
      rw [show (mkCreated (payloadOf ad') (fresh m)).externalId =
        keyOf ad' from rfl] at hsp
      rw [show keyOf ad' = ddgTag ++ (ad'.objectGUID.getD []) from rfl] at hsp
      rw [pySplitOnce_ddg, Option.some_inj, Prod.mk.injEq] at hsp
      have hsuf : suf = ad'.objectGUID.getD [] := hsp.2.symm
      subst hsuf
      rw [adGuidSet_contains_of hmem' (adEligible_split he').1] at hcf
      cases hcf

/-- C4: running group-level sync (`sync_ad_groups_to_y360`) a second time
against an unchanged source snapshot and a target snapshot equal to the
output of the first run yields a second run with `created_count = 0`,
`updated_count = 0` and `deleted_count = 0`.  The hypotheses are the
data-model invariants of the spec: source `objectGUID`s are unique
identifiers, target group ids are unique, and the service assigns fresh ids
to created groups. -/
theorem C4_group_sync_idempotent (env env2 : RemoteEnv) (dry2 : Bool)
    (fresh : Nat → PyString) (ads : List AdGroup) (ys ys2 : List Y360Group)
    (ok1 : Bool) (s1 : GroupStats) (ops1 : List GroupOp)
    (H1 : (adGuidList ads).Nodup)
    (H2 : (ys.map Y360Group.gid).Nodup)
    (H3 : ∀ m, fresh m ∉ ys.map Y360Group.gid)
    (hrun1 : sync_ad_groups_to_y360 env false ads ys = (ok1, s1, ops1))
    (hys2 : ys2 = applyOps fresh ys ops1) :
    (sync_ad_groups_to_y360 env2 dry2 ads ys2).2.1.created_count = 0 ∧
    (sync_ad_groups_to_y360 env2 dry2 ads ys2).2.1.updated_count = 0 ∧
    (sync_ad_groups_to_y360 env2 dry2 ads ys2).2.1.deleted_count = 0 := by
  by_cases hne : ads.isEmpty = true
  · unfold sync_ad_groups_to_y360
    rw [if_pos hne]
    exact ⟨rfl, rfl, rfl⟩
  · rw [Bool.not_eq_true] at hne
    have key := applied_state_in_sync env fresh ads ys H1 H2 H3 hne
    rw [hrun1] at key
    rw [show ((ok1, s1, ops1) : Bool × GroupStats × List GroupOp).2.2 = ops1
      from rfl] at key
    rw [← hys2] at key
    obtain ⟨hA, hTD⟩ := key
    unfold sync_ad_groups_to_y360
    rw [if_neg (by simp [hne])]
    rcases hfold : ads.foldl (processAdGroup env2 dry2 (buildGroupIndex ys2))
        ({ groupStats0 with
            ad_groups_count := ads.length
            y360_groups_count := ys2.length }, []) with ⟨sa, opsa⟩
    have hcounts := adPhase_counts env2 dry2 (buildGroupIndex ys2) ads
      { groupStats0 with
          ad_groups_count := ads.length
          y360_groups_count := ys2.length } [] hA
    rw [hfold] at hcounts
    have hdel := deletePhase_of_nil env2 dry2 ads ys2 (sa, opsa) hTD
    simp only [hfold, hdel]
    exact ⟨hcounts.1, hcounts.2.1, hcounts.2.2⟩

/-- Witness for C4 at a concrete input: one eligible source group against an
empty target snapshot; the second run reports no create, update or delete. -/
theorem C4_group_sync_idempotent_witness :
    (adGuidList [adC4]).Nodup ∧
    (([] : List Y360Group).map Y360Group.gid).Nodup ∧
    ((sync_ad_groups_to_y360 remoteAllOk false [adC4]
        (applyOps freshC4 []
          (sync_ad_groups_to_y360 remoteAllOk false [adC4] []).2.2)).2.1.created_count
          = 0 ∧
      (sync_ad_groups_to_y360 remoteAllOk false [adC4]
        (applyOps freshC4 []
          (sync_ad_groups_to_y360 remoteAllOk false [adC4] []).2.2)).2.1.updated_count
          = 0 ∧
      (sync_ad_groups_to_y360 remoteAllOk false [adC4]
        (applyOps freshC4 []
          (sync_ad_groups_to_y360 remoteAllOk false [adC4] []).2.2)).2.1.deleted_count
          = 0) :=
  ⟨by decide, by decide,
    C4_group_sync_idempotent remoteAllOk remoteAllOk false freshC4 [adC4] []
      (applyOps freshC4 []
        (sync_ad_groups_to_y360 remoteAllOk false [adC4] []).2.2)
      (sync_ad_groups_to_y360 remoteAllOk false [adC4] []).1
      (sync_ad_groups_to_y360 remoteAllOk false [adC4] []).2.1
      (sync_ad_groups_to_y360 remoteAllOk false [adC4] []).2.2
      (by decide) (by decide) (fun m => List.not_mem_nil _)
      rfl rfl⟩

/-- C1: for every input combination, `sync_ad_groups_to_y360` deletes only
target groups whose `externalId` starts with `"DDG;"` and whose suffix after
the first `';'` matches no source group's `objectGUID`; a target group whose
`externalId` lacks the prefix is never deleted or patched. -/
theorem C1_tag_safety (env : RemoteEnv) (dryRun : Bool) (ads : List AdGroup)
    (ys : List Y360Group) (op : GroupOp)
    (hop : op ∈ (sync_ad_groups_to_y360 env dryRun ads ys).2.2) :
    (∀ i, op = GroupOp.delete i →
      ∃ g, g ∈ ys ∧ g.gid = i ∧ pyStartsWith ddgTag g.externalId = true ∧
        ∃ pre suf, pySplitOnce ';' g.externalId = some (pre, suf) ∧
          (adGuidSet ads).contains suf = false) ∧
    (∀ i p, op = GroupOp.patch i p →
      ∃ g, g ∈ ys ∧ g.gid = i ∧ pyStartsWith ddgTag g.externalId = true) := by
  cases dryRun
  case true =>
    rw [sync_dry_ops] at hop
    cases hop
  case false =>
    by_cases hne : ads.isEmpty = true
    · unfold sync_ad_groups_to_y360 at hop
      rw [if_pos hne] at hop
      exact absurd hop (List.not_mem_nil op)
    · rw [Bool.not_eq_true] at hne
      rw [sync_live_ops env ads ys hne] at hop
      rcases List.mem_append.mp hop with hop | hop
      · obtain ⟨ad, hadm, hmem⟩ := emitAds_mem hop
        obtain ⟨he, hcase⟩ := emitForAd_mem hmem
        constructor
        · intro i hdel
          rcases hcase with ⟨g, hg, hch, rfl⟩ | ⟨hg, rfl⟩
          · exact GroupOp.noConfusion hdel
          · exact GroupOp.noConfusion hdel
        · intro i p hpatch
          rcases hcase with ⟨g, hg, hch, rfl⟩ | ⟨hg, rfl⟩
          · injection hpatch with h1 h2
            obtain ⟨hgys, hgext⟩ := buildGroupIndex_mem hg
            refine ⟨g, hgys, h1, ?_⟩
            rw [hgext]
            rw [show keyOf ad = ddgTag ++ (ad.objectGUID.getD []) from rfl]
            exact pyStartsWith_append _ _
          · exact GroupOp.noConfusion hpatch
      · rw [List.mem_map] at hop
        obtain ⟨d, hd, rfl⟩ := hop
        obtain ⟨hdys, hsw, pre, suf, hsp, hcf⟩ := toDeleteList_mem.mp hd
        constructor
        · intro i hdel
          injection hdel with h1
          exact ⟨d, hdys, h1, hsw, pre, suf, hsp, hcf⟩
        · intro i p hpat
          exact GroupOp.noConfusion hpat

/-- Witness for C1 at a concrete input on which a delete is emitted: the
orphaned tagged group is delete-targeted, and the conclusion names its tag
and unmatched suffix. -/
theorem C1_tag_safety_witness :
    GroupOp.delete ("12".toList) ∈
      (sync_ad_groups_to_y360 remoteAllOk false [adC4]
        [yStaleC1, yOrphanC1, yForeignC1]).2.2 ∧
    ((∀ i, GroupOp.delete ("12".toList) = GroupOp.delete i →
      ∃ g, g ∈ [yStaleC1, yOrphanC1, yForeignC1] ∧ g.gid = i ∧
        pyStartsWith ddgTag g.externalId = true ∧
        ∃ pre suf, pySplitOnce ';' g.externalId = some (pre, suf) ∧
          (adGuidSet [adC4]).contains suf = false) ∧
    (∀ i p, GroupOp.delete ("12".toList) = GroupOp.patch i p →
      ∃ g, g ∈ [yStaleC1, yOrphanC1, yForeignC1] ∧ g.gid = i ∧
        pyStartsWith ddgTag g.externalId = true)) :=
  ⟨by decide,
    C1_tag_safety remoteAllOk false [adC4] [yStaleC1, yOrphanC1, yForeignC1]
      (GroupOp.delete ("12".toList)) (by decide)⟩

/-- C8 counterexample: with a nonempty source list and an empty target-group
list, `sync_ad_groups_to_y360` does not abort — it decides one creation
(`created_count = 1` and a create call is invoked), refuting the claim that
an empty target-group list aborts the group-sync phase with no mutating
decisions. -/
theorem C8_counterexample_empty_target_creates :
    (sync_ad_groups_to_y360 remoteAllOk false [adC4] []).2.1.created_count = 1 ∧
    (sync_ad_groups_to_y360 remoteAllOk false [adC4] []).2.2 =
      [GroupOp.create (payloadOf adC4)] := by
  exact ⟨rfl, rfl⟩

/-- C8 amended: `sync_group_members` aborts immediately — returning success
with zero statistics and invoking no member mutation — when any of its three
input lists is empty, and `sync_ad_groups_to_y360` aborts immediately when
the source-group list is empty; but an empty target-group list does not
abort the group-sync phase (see the counterexample: eligible source groups
are created into the empty target). -/
theorem C8_amended_empty_aborts :
    (∀ (env : MemberEnv) (dry : Bool) (ys : List Y360Group)
        (users : List Y360User),
      sync_group_members env dry [] ys users = .ok (true, memberStats0, [])) ∧
    (∀ (env : MemberEnv) (dry : Bool) (ads : List AdGroup)
        (users : List Y360User),
      sync_group_members env dry ads [] users = .ok (true, memberStats0, [])) ∧
    (∀ (env : MemberEnv) (dry : Bool) (ads : List AdGroup)
        (ys : List Y360Group),
      sync_group_members env dry ads ys [] = .ok (true, memberStats0, [])) ∧
    (∀ (env : RemoteEnv) (dry : Bool) (ys : List Y360Group),
      sync_ad_groups_to_y360 env dry [] ys = (true, groupStats0, [])) := by
  refine ⟨?_, ?_, ?_, ?_⟩
  · intro env dry ys users
    rfl
  · intro env dry ads users
    unfold sync_group_members
    by_cases h : ads.isEmpty = true
    · rw [if_pos h]
    · rw [Bool.not_eq_true] at h
      rw [if_neg (by simp [h])]
      rfl
  · intro env dry ads ys
    unfold sync_group_members
    by_cases h : ads.isEmpty = true
    · rw [if_pos h]
    · rw [Bool.not_eq_true] at h
      rw [if_neg (by simp [h])]
      by_cases h2 : ys.isEmpty = true
      · rw [if_pos h2]
      · rw [Bool.not_eq_true] at h2
        rw [if_neg (by simp [h2])]
        rfl
  · intro env dry ys
    rfl

theorem contains_eq_false_iff {l : List Char} {c : Char} :
    l.contains c = false ↔ ¬(c ∈ l) := by
  rw [← Bool.not_eq_true, List.elem_iff]

/-- Attribute-exactness of the field-diff engine.  The label is compared
only when `mail` has a *nonempty* local part (line 1900's `if
expected_label:` truthiness guard). -/
theorem computeChanges_spec (dn mail ed : PyString) (g : Y360Group) :
    (((computeChanges dn (expectedLabel mail) ed g).name = none ↔
        g.name = dn) ∧
      (∀ v, (computeChanges dn (expectedLabel mail) ed g).name = some v →
        v = dn ∧ g.name ≠ v)) ∧
    ((mail.contains '@' = false →
        (computeChanges dn (expectedLabel mail) ed g).label = none) ∧
      ((localPart mail).isEmpty = true →
        (computeChanges dn (expectedLabel mail) ed g).label = none) ∧
      (∀ v, (computeChanges dn (expectedLabel mail) ed g).label = some v →
        mail.contains '@' = true ∧ v = localPart mail ∧
        v.isEmpty = false ∧ g.label ≠ v) ∧
      (mail.contains '@' = true → (localPart mail).isEmpty = false →
        ((computeChanges dn (expectedLabel mail) ed g).label = none ↔
          g.label = localPart mail))) ∧
    (((computeChanges dn (expectedLabel mail) ed g).description = none ↔
        g.description = ed) ∧
      (∀ v, (computeChanges dn (expectedLabel mail) ed g).description = some v →
        v = ed ∧ g.description ≠ v)) := by
  unfold computeChanges expectedLabel
  refine ⟨⟨?_, ?_⟩, ⟨?_, ?_, ?_, ?_⟩, ⟨?_, ?_⟩⟩
  · by_cases hn : g.name = dn <;> simp [hn]
  · intro v
    by_cases hn : g.name = dn <;> simp [hn]
    intro hv
    exact ⟨hv.symm, fun h => hn (h.trans hv.symm)⟩
  · intro hmf
    have hm2 : ¬('@' ∈ mail) := contains_eq_false_iff.mp hmf
    simp [hm2]
  · intro hle
    by_cases hm : '@' ∈ mail
    · simp [hm, hle]
    · simp [hm]
  · intro v
    by_cases hm : '@' ∈ mail
    · by_cases hle : (localPart mail).isEmpty = true
      · simp [hm, hle]
      · by_cases hl : g.label = localPart mail
        · simp [hm, hle, hl]
        · simp [hm, hle, hl]
          intro hv
          refine ⟨hv.symm, ?_, fun h => hl (h.trans hv.symm)⟩
          rw [← hv]
          exact fun h2 => hle (by rw [h2]; rfl)
    · simp [hm]
  · intro hmt hle
    have hm : '@' ∈ mail := List.elem_iff.mp hmt
    by_cases hl : g.label = localPart mail <;> simp [hm, hle, hl]
  · by_cases hd : g.description = ed <;> simp [hd]
  · intro v
    by_cases hd : g.description = ed <;> simp [hd]
    intro hv
    exact ⟨hv.symm, fun h => hd (h.trans hv.symm)⟩

/-- C9: every update call of the group sync carries a patch that contains
exactly the attributes among `name`, `label`, `description` whose
source-derived value differs from the matched target group's value — `name`
against `displayName`, `label` against the local part of `mail` (only
included when `mail` contains `'@'` and the local part is nonempty: line
1900's `if expected_label:` truthiness guard suppresses the comparison for
an absent or empty expected label even when the target currently has a
label), `description` against the source description with `None`/absent
read as the empty string — and no update call is made with an empty
patch. -/
theorem C9_field_diff (env : RemoteEnv) (dryRun : Bool) (ads : List AdGroup)
    (ys : List Y360Group) (i : PyString) (p : Patch)
    (hop : GroupOp.patch i p ∈ (sync_ad_groups_to_y360 env dryRun ads ys).2.2) :
    ∃ ad g, ad ∈ ads ∧ g ∈ ys ∧ adEligible ad = true ∧ g.gid = i ∧
      g.externalId = keyOf ad ∧ p ≠ emptyPatch ∧
      ((p.name = none ↔ g.name = ad.displayName.getD []) ∧
        (∀ v, p.name = some v → v = ad.displayName.getD [] ∧ g.name ≠ v)) ∧
      (((ad.mail.getD []).contains '@' = false → p.label = none) ∧
        ((localPart (ad.mail.getD [])).isEmpty = true → p.label = none) ∧
        (∀ v, p.label = some v → (ad.mail.getD []).contains '@' = true ∧
          v = localPart (ad.mail.getD []) ∧ v.isEmpty = false ∧
          g.label ≠ v) ∧
        ((ad.mail.getD []).contains '@' = true →
          (localPart (ad.mail.getD [])).isEmpty = false →
          (p.label = none ↔ g.label = localPart (ad.mail.getD [])))) ∧
      ((p.description = none ↔
          g.description = expectedDescription ad.description) ∧
        (∀ v, p.description = some v →
          v = expectedDescription ad.description ∧ g.description ≠ v)) := by
  cases dryRun
  case true =>
    rw [sync_dry_ops] at hop
    cases hop
  case false =>
    by_cases hne : ads.isEmpty = true
    · unfold sync_ad_groups_to_y360 at hop
      rw [if_pos hne] at hop
      exact absurd hop (List.not_mem_nil _)
    · rw [Bool.not_eq_true] at hne
      rw [sync_live_ops env ads ys hne] at hop
      rcases List.mem_append.mp hop with hop | hop
      · obtain ⟨ad, hadm, hmem⟩ := emitAds_mem hop
        obtain ⟨he, hcase⟩ := emitForAd_mem hmem
        rcases hcase with ⟨g, hg, hch, heqop⟩ | ⟨hg, heqop⟩
        · injection heqop with h1 h2
          obtain ⟨hgys, hgext⟩ := buildGroupIndex_mem hg
          subst h1
          subst h2
          have hs := computeChanges_spec (ad.displayName.getD [])
            (ad.mail.getD []) (expectedDescription ad.description) g
          exact ⟨ad, g, hadm, hgys, he, rfl, hgext, hch,
            hs.1, hs.2.1, hs.2.2⟩
        · exact GroupOp.noConfusion heqop
      · rw [List.mem_map] at hop
        obtain ⟨d, _, hdel⟩ := hop
        exact GroupOp.noConfusion hdel

/-- Witness for C9 at a concrete input on which one update call is decided:
the stale group's patch contains exactly the `name` attribute. -/
theorem C9_field_diff_witness :
    GroupOp.patch ("11".toList) ⟨some "Sales".toList, none, none⟩ ∈
      (sync_ad_groups_to_y360 remoteAllOk false [adC4]
        [yStaleC1, yOrphanC1, yForeignC1]).2.2 ∧
    (∃ ad g, ad ∈ [adC4] ∧ g ∈ [yStaleC1, yOrphanC1, yForeignC1] ∧
      adEligible ad = true ∧ g.gid = "11".toList ∧
      g.externalId = keyOf ad ∧
      (⟨some "Sales".toList, none, none⟩ : Patch) ≠ emptyPatch ∧
      (((⟨some "Sales".toList, none, none⟩ : Patch).name = none ↔
          g.name = ad.displayName.getD []) ∧
        (∀ v, (⟨some "Sales".toList, none, none⟩ : Patch).name = some v →
          v = ad.displayName.getD [] ∧ g.name ≠ v)) ∧
      (((ad.mail.getD []).contains '@' = false →
          (⟨some "Sales".toList, none, none⟩ : Patch).label = none) ∧
        ((localPart (ad.mail.getD [])).isEmpty = true →
          (⟨some "Sales".toList, none, none⟩ : Patch).label = none) ∧
        (∀ v, (⟨some "Sales".toList, none, none⟩ : Patch).label = some v →
          (ad.mail.getD []).contains '@' = true ∧
          v = localPart (ad.mail.getD []) ∧ v.isEmpty = false ∧
          g.label ≠ v) ∧
        ((ad.mail.getD []).contains '@' = true →
          (localPart (ad.mail.getD [])).isEmpty = false →
          ((⟨some "Sales".toList, none, none⟩ : Patch).label = none ↔
            g.label = localPart (ad.mail.getD [])))) ∧
      (((⟨some "Sales".toList, none, none⟩ : Patch).description = none ↔
          g.description = expectedDescription ad.description) ∧
        (∀ v,
          (⟨some "Sales".toList, none, none⟩ : Patch).description = some v →
          v = expectedDescription ad.description ∧ g.description ≠ v))) :=
  ⟨by decide,
    C9_field_diff remoteAllOk false [adC4] [yStaleC1, yOrphanC1, yForeignC1]
      ("11".toList) ⟨some "Sales".toList, none, none⟩ (by decide)⟩

/-! ## Dry-run equivalence under an all-success remote collaborator -/

theorem processAdGroup_stats_eq (env : RemoteEnv)
    (hpat : ∀ i p, env.patchOk i p = true)
    (hcr : ∀ p, env.createOk p = true)
    (index : PyString → Option Y360Group) (ad : AdGroup) (s : GroupStats)
    (ops ops' : List GroupOp) :
    (processAdGroup env true index (s, ops) ad).1 =
      (processAdGroup env false index (s, ops') ad).1 := by
  unfold processAdGroup
  by_cases he : adEligible ad = true
  case neg =>
    rw [Bool.not_eq_true] at he
    simp [he]
  case pos =>
  rw [if_neg (show ¬¬adEligible ad = true by simp [he]),
    if_neg (show ¬¬adEligible ad = true by simp [he])]
  rcases hidx : index (keyOf ad) with _ | g
  · simp [hcr]
  · by_cases hch : changesOf ad g = emptyPatch
    · simp [hch]
    · simp [hch, hpat]

theorem adPhase_stats_eq (env : RemoteEnv)
    (hpat : ∀ i p, env.patchOk i p = true)
    (hcr : ∀ p, env.createOk p = true)
    (index : PyString → Option Y360Group) :
    ∀ (ads : List AdGroup) (s : GroupStats) (ops ops' : List GroupOp),
    (ads.foldl (processAdGroup env true index) (s, ops)).1 =
      (ads.foldl (processAdGroup env false index) (s, ops')).1 := by
  intro ads
  induction ads with
  | nil => intro s ops ops'; rfl
  | cons ad rest ih =>
    intro s ops ops'
    rcases h1 : processAdGroup env true index (s, ops) ad with ⟨sd, opsd⟩
    rcases h2 : processAdGroup env false index (s, ops') ad with ⟨sl, opsl⟩
    have hss : sd = sl := by
      have h3 := processAdGroup_stats_eq env hpat hcr index ad s ops ops'
      rw [h1, h2] at h3
      exact h3
    rw [List.foldl_cons, List.foldl_cons, h1, h2, hss]
    exact ih sl opsd opsl

theorem deleteStep_stats_eq (env : RemoteEnv)
    (hdel : ∀ i, env.deleteRes i = (true, true)) (s : GroupStats)
    (ops ops' : List GroupOp) (g : Y360Group) :
    (deleteStep env true (s, ops) g).1 =
      (deleteStep env false (s, ops') g).1 := by
  unfold deleteStep
  rw [hdel g.gid]
  simp

theorem deletePhase_stats_eq (env : RemoteEnv)
    (hdel : ∀ i, env.deleteRes i = (true, true)) (ads : List AdGroup)
    (ys : List Y360Group) :
    ∀ (s : GroupStats) (ops ops' : List GroupOp),
    (deletePhase env true ads ys (s, ops)).1 =
      (deletePhase env false ads ys (s, ops')).1 := by
  unfold deletePhase
  induction toDeleteList ads ys with
  | nil => intro s ops ops'; rfl
  | cons g rest ih =>
    intro s ops ops'
    rcases h1 : deleteStep env true (s, ops) g with ⟨sd, opsd⟩
    rcases h2 : deleteStep env false (s, ops') g with ⟨sl, opsl⟩
    have hss : sd = sl := by
      have h3 := deleteStep_stats_eq env hdel s ops ops' g
      rw [h1, h2] at h3
      exact h3
    rw [List.foldl_cons, List.foldl_cons, h1, h2, hss]
    exact ih sl opsd opsl

theorem sync_group_stats_eq (env : RemoteEnv)
    (hpat : ∀ i p, env.patchOk i p = true)
    (hcr : ∀ p, env.createOk p = true)
    (hdel : ∀ i, env.deleteRes i = (true, true))
    (ads : List AdGroup) (ys : List Y360Group) :
    (sync_ad_groups_to_y360 env true ads ys).2.1 =
      (sync_ad_groups_to_y360 env false ads ys).2.1 := by
  unfold sync_ad_groups_to_y360
  by_cases hne : ads.isEmpty = true
  · rw [if_pos hne, if_pos hne]
  · rw [if_neg hne, if_neg hne]
    rcases h1 : ads.foldl (processAdGroup env true (buildGroupIndex ys))
        ({ groupStats0 with
            ad_groups_count := ads.length
            y360_groups_count := ys.length }, []) with ⟨sd, opsd⟩
    rcases h2 : ads.foldl (processAdGroup env false (buildGroupIndex ys))
        ({ groupStats0 with
            ad_groups_count := ads.length
            y360_groups_count := ys.length }, []) with ⟨sl, opsl⟩
    have hss : sd = sl := by
      have h3 := adPhase_stats_eq env hpat hcr (buildGroupIndex ys) ads
        { groupStats0 with
            ad_groups_count := ads.length
            y360_groups_count := ys.length } [] []
      rw [h1, h2] at h3
      exact h3
    simp only [h1, h2, hss]
    rcases h4 : deletePhase env true ads ys (sl, opsd) with ⟨se, opse⟩
    rcases h5 : deletePhase env false ads ys (sl, opsl) with ⟨sf, opsf⟩
    have hss2 : se = sf := by
      have h6 := deletePhase_stats_eq env hdel ads ys sl opsd opsl
      rw [h4, h5] at h6
      exact h6
    simp only [h4, h5, hss2]

theorem applyAddStep_stats_eq (env : MemberEnv)
    (hadd : ∀ g u, env.addRes g u = (true, true)) (gid : PyString)
    (s : MemberStats) (ops ops' : List MemberOp) (u : MemberRef) :
    (applyAddStep env true gid (s, ops) u).1 =
      (applyAddStep env false gid (s, ops') u).1 := by
  unfold applyAddStep
  rw [hadd gid u.user_id]
  simp

theorem applyRemoveStep_stats_eq (env : MemberEnv)
    (hrem : ∀ g u, env.removeRes g u = (true, true)) (gid : PyString)
    (s : MemberStats) (ops ops' : List MemberOp) (u : MemberRef) :
    (applyRemoveStep env true gid (s, ops) u).1 =
      (applyRemoveStep env false gid (s, ops') u).1 := by
  unfold applyRemoveStep
  rw [hrem gid u.user_id]
  simp

theorem addLoop_stats_eq (env : MemberEnv)
    (hadd : ∀ g u, env.addRes g u = (true, true)) (gid : PyString) :
    ∀ (us : List MemberRef) (s : MemberStats) (ops ops' : List MemberOp),
    (us.foldl (applyAddStep env true gid) (s, ops)).1 =
      (us.foldl (applyAddStep env false gid) (s, ops')).1 := by
  intro us
  induction us with
  | nil => intro s ops ops'; rfl
  | cons u rest ih =>
    intro s ops ops'
    rcases h1 : applyAddStep env true gid (s, ops) u with ⟨sd, opsd⟩
    rcases h2 : applyAddStep env false gid (s, ops') u with ⟨sl, opsl⟩
    have hss : sd = sl := by
      have h3 := applyAddStep_stats_eq env hadd gid s ops ops' u
      rw [h1, h2] at h3
      exact h3
    rw [List.foldl_cons, List.foldl_cons, h1, h2, hss]
    exact ih sl opsd opsl

theorem removeLoop_stats_eq (env : MemberEnv)
    (hrem : ∀ g u, env.removeRes g u = (true, true)) (gid : PyString) :
    ∀ (us : List MemberRef) (s : MemberStats) (ops ops' : List MemberOp),
    (us.foldl (applyRemoveStep env true gid) (s, ops)).1 =
      (us.foldl (applyRemoveStep env false gid) (s, ops')).1 := by
  intro us
  induction us with
  | nil => intro s ops ops'; rfl
  | cons u rest ih =>
    intro s ops ops'
    rcases h1 : applyRemoveStep env true gid (s, ops) u with ⟨sd, opsd⟩
    rcases h2 : applyRemoveStep env false gid (s, ops') u with ⟨sl, opsl⟩
    have hss : sd = sl := by
      have h3 := applyRemoveStep_stats_eq env hrem gid s ops ops' u
      rw [h1, h2] at h3
      exact h3
    rw [List.foldl_cons, List.foldl_cons, h1, h2, hss]
    exact ih sl opsd opsl

theorem addLoop_dry_ops (env : MemberEnv) (gid : PyString) :
    ∀ (us : List MemberRef) (s : MemberStats) (ops : List MemberOp),
    (us.foldl (applyAddStep env true gid) (s, ops)).2 = ops := by
  intro us
  induction us with
  | nil => intro s ops; rfl
  | cons u rest ih =>
    intro s ops
    rw [List.foldl_cons]
    rw [show applyAddStep env true gid (s, ops) u =
      ({ s with users_added_count := s.users_added_count + 1 }, ops) from rfl]
    exact ih _ ops

theorem removeLoop_dry_ops (env : MemberEnv) (gid : PyString) :
    ∀ (us : List MemberRef) (s : MemberStats) (ops : List MemberOp),
    (us.foldl (applyRemoveStep env true gid) (s, ops)).2 = ops := by
  intro us
  induction us with
  | nil => intro s ops; rfl
  | cons u rest ih =>
    intro s ops
    rw [List.foldl_cons]
    rw [show applyRemoveStep env true gid (s, ops) u =
      ({ s with users_removed_count := s.users_removed_count + 1 }, ops)
      from rfl]
    exact ih _ ops

/-- One group iteration of the membership sync: in dry-run and live mode the
run either raises identically or produces identical statistics, the dry run
leaving the trace untouched. -/
theorem processY360Group_cases (env : MemberEnv)
    (hadd : ∀ g u, env.addRes g u = (true, true))
    (hrem : ∀ g u, env.removeRes g u = (true, true))
    (adBy : PyString → Option AdGroup) (index : PyString → Option Y360User)
    (g : Y360Group) (s : MemberStats) (ops ops' : List MemberOp) :
    (processY360Group env true adBy index (s, ops) g = .error () ∧
      processY360Group env false adBy index (s, ops') g = .error ()) ∨
    (∃ s2 ops2', processY360Group env true adBy index (s, ops) g = .ok (s2, ops) ∧
      processY360Group env false adBy index (s, ops') g = .ok (s2, ops2')) := by
  unfold processY360Group
  by_cases ht : pyStartsWith ddgTag g.externalId = true
  case neg =>
    rw [Bool.not_eq_true] at ht
    refine Or.inr ⟨s, ops', ?_, ?_⟩ <;> simp [ht]
  case pos =>
  rw [if_neg (show ¬¬pyStartsWith ddgTag g.externalId = true by simp [ht]),
    if_neg (show ¬¬pyStartsWith ddgTag g.externalId = true by simp [ht])]
  rcases hsp : pySplitOnce ';' g.externalId with _ | ⟨pre, guid⟩
  · exact Or.inr ⟨_, _, rfl, rfl⟩
  · simp only []
    rcases had : adBy guid with _ | ad_group
    · exact Or.inr ⟨_, _, rfl, rfl⟩
    · simp only []
      rcases hgm : env.getMembers g.gid with _ | members
      · exact Or.inr ⟨_, _, rfl, rfl⟩
      · simp only []
        rcases hmn : y360MemberNicknames index members [] with e | memberNs
        · cases e
          exact Or.inl ⟨rfl, rfl⟩
        · simp only []
          by_cases hemp : (get_group_members_from_file env.files
              ad_group.displayName).isEmpty = true
          · rw [if_pos hemp, if_pos hemp]
            exact Or.inr ⟨_, _, rfl, rfl⟩
          · rw [if_neg hemp, if_neg hemp]
            rcases ha1 : (users_to_add_of index memberNs
                (adNicknameSet (get_group_members_from_file env.files
                  ad_group.displayName))).1.foldl
                (applyAddStep env true g.gid)
                ({ s with
                    y360_groups_processed := s.y360_groups_processed + 1
                    ad_groups_found := s.ad_groups_found + 1
                    users_not_found_count := s.users_not_found_count +
                      (users_to_add_of index memberNs
                        (adNicknameSet (get_group_members_from_file env.files
                          ad_group.displayName))).2 }, ops)
              with ⟨sad, opsad⟩
            rcases ha2 : (users_to_add_of index memberNs
                (adNicknameSet (get_group_members_from_file env.files
                  ad_group.displayName))).1.foldl
                (applyAddStep env false g.gid)
                ({ s with
                    y360_groups_processed := s.y360_groups_processed + 1
                    ad_groups_found := s.ad_groups_found + 1
                    users_not_found_count := s.users_not_found_count +
                      (users_to_add_of index memberNs
                        (adNicknameSet (get_group_members_from_file env.files
                          ad_group.displayName))).2 }, ops')
              with ⟨sal, opsal⟩
            have hseq : sad = sal := by
              have h3 := addLoop_stats_eq env hadd g.gid
                (users_to_add_of index memberNs
                  (adNicknameSet (get_group_members_from_file env.files
                    ad_group.displayName))).1
                { s with
                    y360_groups_processed := s.y360_groups_processed + 1
                    ad_groups_found := s.ad_groups_found + 1
                    users_not_found_count := s.users_not_found_count +
                      (users_to_add_of index memberNs
                        (adNicknameSet (get_group_members_from_file env.files
                          ad_group.displayName))).2 } ops ops'
              rw [ha1, ha2] at h3
              exact h3
            have hopsad : opsad = ops := by
              have h4 := addLoop_dry_ops env g.gid
                (users_to_add_of index memberNs
                  (adNicknameSet (get_group_members_from_file env.files
                    ad_group.displayName))).1
                { s with
                    y360_groups_processed := s.y360_groups_processed + 1
                    ad_groups_found := s.ad_groups_found + 1
                    users_not_found_count := s.users_not_found_count +
                      (users_to_add_of index memberNs
                        (adNicknameSet (get_group_members_from_file env.files
                          ad_group.displayName))).2 } ops
              rw [ha1] at h4
              exact h4
            rw [hseq, hopsad]
            rcases hr1 : (users_to_remove_of members
                (adNicknameSet (get_group_members_from_file env.files
                  ad_group.displayName))).foldl
                (applyRemoveStep env true g.gid) (sal, ops) with ⟨srd, opsrd⟩
            rcases hr2 : (users_to_remove_of members
                (adNicknameSet (get_group_members_from_file env.files
                  ad_group.displayName))).foldl
                (applyRemoveStep env false g.gid) (sal, opsal)
              with ⟨srl, opsrl⟩
            have hseq2 : srd = srl := by
              have h5 := removeLoop_stats_eq env hrem g.gid
                (users_to_remove_of members
                  (adNicknameSet (get_group_members_from_file env.files
                    ad_group.displayName))) sal ops opsal
              rw [hr1, hr2] at h5
              exact h5
            have hopsrd : opsrd = ops := by
              have h6 := removeLoop_dry_ops env g.gid
                (users_to_remove_of members
                  (adNicknameSet (get_group_members_from_file env.files
                    ad_group.displayName))) sal ops
              rw [hr1] at h6
              exact h6
            rw [hseq2, hopsrd]
            exact Or.inr ⟨srl, opsrl, rfl, rfl⟩

theorem syncMembersLoop_cases (env : MemberEnv)
    (hadd : ∀ g u, env.addRes g u = (true, true))
    (hrem : ∀ g u, env.removeRes g u = (true, true))
    (adBy : PyString → Option AdGroup) (index : PyString → Option Y360User) :
    ∀ (gs : List Y360Group) (s : MemberStats) (ops ops' : List MemberOp),
    (syncMembersLoop env true adBy index gs (s, ops) = .error () ∧
      syncMembersLoop env false adBy index gs (s, ops') = .error ()) ∨
    (∃ s2 ops2',
      syncMembersLoop env true adBy index gs (s, ops) = .ok (s2, ops) ∧
      syncMembersLoop env false adBy index gs (s, ops') = .ok (s2, ops2')) := by
  intro gs
  induction gs with
  | nil => intro s ops ops'; exact Or.inr ⟨s, ops', rfl, rfl⟩
  | cons gh rest ih =>
    intro s ops ops'
    rcases processY360Group_cases env hadd hrem adBy index gh s ops ops'
      with ⟨h1, h2⟩ | ⟨s2, ops2', h1, h2⟩
    · refine Or.inl ⟨?_, ?_⟩
      · simp only [syncMembersLoop]
        rw [h1]
      · simp only [syncMembersLoop]
        rw [h2]
    · rcases ih s2 ops ops2' with ⟨h3, h4⟩ | ⟨s3, ops3', h3, h4⟩
      · refine Or.inl ⟨?_, ?_⟩
        · simp only [syncMembersLoop]
          rw [h1]
          exact h3
        · simp only [syncMembersLoop]
          rw [h2]
          exact h4
      · refine Or.inr ⟨s3, ops3', ?_, ?_⟩
        · simp only [syncMembersLoop]
          rw [h1]
          exact h3
        · simp only [syncMembersLoop]
          rw [h2]
          exact h4

theorem sync_group_members_cases (env : MemberEnv)
    (hadd : ∀ g u, env.addRes g u = (true, true))
    (hrem : ∀ g u, env.removeRes g u = (true, true))
    (ads : List AdGroup) (ys : List Y360Group) (users : List Y360User) :
    (sync_group_members env true ads ys users = .error () ∧
      sync_group_members env false ads ys users = .error ()) ∨
    (∃ r r', sync_group_members env true ads ys users = .ok r ∧
      sync_group_members env false ads ys users = .ok r' ∧
      r.1 = r'.1 ∧ r.2.1 = r'.2.1 ∧ r.2.2 = []) := by
  unfold sync_group_members
  by_cases h1 : ads.isEmpty = true
  · simp only [if_pos h1]
    exact Or.inr ⟨_, _, rfl, rfl, rfl, rfl, rfl⟩
  · simp only [if_neg h1]
    by_cases h2 : ys.isEmpty = true
    · simp only [if_pos h2]
      exact Or.inr ⟨_, _, rfl, rfl, rfl, rfl, rfl⟩
    · simp only [if_neg h2]
      by_cases h3 : users.isEmpty = true
      · simp only [if_pos h3]
        exact Or.inr ⟨_, _, rfl, rfl, rfl, rfl, rfl⟩
      · simp only [if_neg h3]
        rcases syncMembersLoop_cases env hadd hrem (buildAdIndex ads)
            (buildUserIndex users) ys memberStats0 [] []
          with ⟨hd, hl⟩ | ⟨s2, ops2', hd, hl⟩
        · rw [hd, hl]
          exact Or.inl ⟨rfl, rfl⟩
        · rw [hd, hl]
          exact Or.inr ⟨_, _, rfl, rfl, rfl, rfl, rfl⟩

/-- C3: dry-run equivalence.  When every remote mutating call would succeed
and report its change applied, a dry run of the group sync returns the same
statistics as a live run while invoking no create/patch/delete call, and the
membership sync either raises identically in both modes or returns the same
success flag and the same statistics, invoking no add/remove-member call in
dry-run mode. -/
theorem C3_dry_run_equivalence (renv : RemoteEnv)
    (hpat : ∀ i p, renv.patchOk i p = true)
    (hcr : ∀ p, renv.createOk p = true)
    (hdel : ∀ i, renv.deleteRes i = (true, true))
    (menv : MemberEnv)
    (hadd : ∀ g u, menv.addRes g u = (true, true))
    (hrem : ∀ g u, menv.removeRes g u = (true, true))
    (ads : List AdGroup) (ys : List Y360Group) (users : List Y360User) :
    ((sync_ad_groups_to_y360 renv true ads ys).2.1 =
        (sync_ad_groups_to_y360 renv false ads ys).2.1 ∧
      (sync_ad_groups_to_y360 renv true ads ys).2.2 = []) ∧
    ((sync_group_members menv true ads ys users = .error () ∧
        sync_group_members menv false ads ys users = .error ()) ∨
      (∃ r r', sync_group_members menv true ads ys users = .ok r ∧
        sync_group_members menv false ads ys users = .ok r' ∧
        r.1 = r'.1 ∧ r.2.1 = r'.2.1 ∧ r.2.2 = [])) :=
  ⟨⟨sync_group_stats_eq renv hpat hcr hdel ads ys, sync_dry_ops renv ads ys⟩,
    sync_group_members_cases menv hadd hrem ads ys users⟩

/-- Closed instance of the dry-run equivalence theorem. -/
theorem C3_dry_run_equivalence_witness :
    ((sync_ad_groups_to_y360 remoteAllOk true [adC4] [yStaleC1]).2.1 =
        (sync_ad_groups_to_y360 remoteAllOk false [adC4] [yStaleC1]).2.1 ∧
      (sync_ad_groups_to_y360 remoteAllOk true [adC4] [yStaleC1]).2.2 = []) ∧
    ((sync_group_members (memberEnvAllOk (fun _ => some []) (fun _ => some []))
          true [adC4] [yStaleC1] [] = .error () ∧
        sync_group_members (memberEnvAllOk (fun _ => some []) (fun _ => some []))
          false [adC4] [yStaleC1] [] = .error ()) ∨
      (∃ r r',
        sync_group_members (memberEnvAllOk (fun _ => some []) (fun _ => some []))
          true [adC4] [yStaleC1] [] = .ok r ∧
        sync_group_members (memberEnvAllOk (fun _ => some []) (fun _ => some []))
          false [adC4] [yStaleC1] [] = .ok r' ∧
        r.1 = r'.1 ∧ r.2.1 = r'.2.1 ∧ r.2.2 = [])) :=
  C3_dry_run_equivalence remoteAllOk (fun _ _ => rfl) (fun _ => rfl)
    (fun _ => rfl) (memberEnvAllOk (fun _ => some []) (fun _ => some []))
    (fun _ _ => rfl) (fun _ _ => rfl) [adC4] [yStaleC1] []

/-- C10: for a target group matched to a source group, an empty e-mail list
from the per-group membership file makes the iteration skip the group:
`skipped_groups_count` is incremented, the operation trace (and hence the
target membership) is untouched; and a missing file always yields the empty
e-mail list. -/
theorem C10_empty_file_skips (env : MemberEnv) (dryRun : Bool)
    (adBy : PyString → Option AdGroup) (index : PyString → Option Y360User)
    (g : Y360Group) (ad_group : AdGroup) (s : MemberStats)
    (ops : List MemberOp) (pre guid : PyString) (members : List Y360User)
    (memberNs : List PyString)
    (ht : pyStartsWith ddgTag g.externalId = true)
    (hsp : pySplitOnce ';' g.externalId = some (pre, guid))
    (had : adBy guid = some ad_group)
    (hgm : env.getMembers g.gid = some members)
    (hmn : y360MemberNicknames index members [] = .ok memberNs)
    (hemp : (get_group_members_from_file env.files
      ad_group.displayName).isEmpty = true) :
    processY360Group env dryRun adBy index (s, ops) g =
      .ok ({ s with
              y360_groups_processed := s.y360_groups_processed + 1
              ad_groups_found := s.ad_groups_found + 1
              skipped_groups_count := s.skipped_groups_count + 1 }, ops) ∧
    (∀ dn, env.files (membersFileName dn) = none →
      get_group_members_from_file env.files (some dn) = []) := by
  constructor
  · unfold processY360Group
    rw [if_neg (show ¬¬pyStartsWith ddgTag g.externalId = true by simp [ht])]
    rw [hsp]
    simp only []
    rw [had]
    simp only []
    rw [hgm]
    simp only []
    rw [hmn]
    simp only []
    rw [if_pos hemp]
  · intro dn hf
    unfold get_group_members_from_file
    simp only []
    by_cases hdn : dn.isEmpty = true
    · rw [if_pos hdn]
    · rw [if_neg hdn, hf]

/-- Closed instance of the empty-source-file skip theorem. -/
theorem C10_empty_file_skips_witness :
    (processY360Group envC10 false (buildAdIndex [aC7])
        (buildUserIndex [wUser]) (memberStats0, []) gC7 =
      .ok ({ memberStats0 with
              y360_groups_processed := memberStats0.y360_groups_processed + 1
              ad_groups_found := memberStats0.ad_groups_found + 1
              skipped_groups_count :=
                memberStats0.skipped_groups_count + 1 }, []) ∧
    (∀ dn, envC10.files (membersFileName dn) = none →
      get_group_members_from_file envC10.files (some dn) = [])) :=
  C10_empty_file_skips envC10 false (buildAdIndex [aC7])
    (buildUserIndex [wUser]) gC7 aC7 memberStats0 [] "DDG".toList
    "g7".toList [] [] rfl rfl rfl rfl rfl rfl

/-- C7: refuted.  With a current group member whose nickname is not a key of
the index built over the supplied target users, the `AttributeError` of line
1600 escapes `sync_group_members` instead of being absorbed into the
counters: the call raises and returns no `(ok, stats)` pair. -/
theorem C7_counterexample_uncaught :
    sync_group_members envC7 false [aC7] [gC7] [wUser] = .error () := rfl

/-- C5: refuted.  On the claimed input (members `alice` and `bob`, `alice`
carrying the alias `a.smith`, source handles `a.smith` and `carol`) the run
adds `carol` as claimed, but removes BOTH `alice` and `bob`: the removal
pass compares primary nicknames only, so `alice` is not retained by her
alias match. -/
theorem C5_alias_member_removed :
    processY360Group envC5 false (buildAdIndex [aC5]) (buildUserIndex usersC5)
      (memberStats0, []) gC5 =
    .ok (⟨1, 1, 1, 2, 0, 0, 0⟩,
      [MemberOp.add "31".toList "3".toList,
        MemberOp.remove "31".toList "1".toList,
        MemberOp.remove "31".toList "2".toList]) := rfl

/-! ## Facts about the user index `y360_users_by_nickname` -/

theorem dictInsert_hit {α : Type} {m : PyString → Option α} {k h : PyString}
    {v u : α} (hh : dictInsert m k v h = some u) :
    (h = k ∧ u = v) ∨ m h = some u := by
  unfold dictInsert at hh
  split at hh
  · exact Or.inl ⟨by assumption, (Option.some_inj.mp hh).symm⟩
  · exact Or.inr hh

theorem aliasFold_hit (v : Y360User) :
    ∀ (as : List PyString) (m : PyString → Option Y360User) (h : PyString)
      (u : Y360User),
    (as.foldl (fun m2 a => dictInsert m2 (pyLower a) v) m) h = some u →
    m h = some u ∨ (u = v ∧ ∃ a ∈ as, h = pyLower a) := by
  intro as
  induction as with
  | nil => intro m h u hh; exact Or.inl hh
  | cons a rest ih =>
    intro m h u hh
    rw [List.foldl_cons] at hh
    rcases ih (dictInsert m (pyLower a) v) h u hh with h1 | ⟨h1, a', ha', h2⟩
    · rcases dictInsert_hit h1 with ⟨h2, h3⟩ | h2
      · exact Or.inr ⟨h3, a, List.mem_cons_self a rest, h2⟩
      · exact Or.inl h2
    · exact Or.inr ⟨h1, a', List.mem_cons_of_mem a ha', h2⟩

theorem buildUserIndex_hit {users : List Y360User} {h : PyString}
    {u : Y360User} (hh : buildUserIndex users h = some u) :
    u ∈ users ∧ h ∈ handlesOf u := by
  suffices H : ∀ (l : List Y360User) (m : PyString → Option Y360User),
      (l.foldl
        (fun m w =>
          match w.nickname with
          | none => m
          | some n =>
              if n.isEmpty then m
              else
                w.aliases.foldl (fun m2 a => dictInsert m2 (pyLower a) w)
                  (dictInsert m (pyLower n) w)) m) h = some u →
      m h = some u ∨ (u ∈ l ∧ h ∈ handlesOf u) by
    rcases H users (fun _ => none) hh with h1 | h1
    · exact absurd h1 (by simp)
    · exact h1
  intro l
  induction l with
  | nil => intro m hh2; exact Or.inl hh2
  | cons w rest ih =>
    intro m hh2
    rw [List.foldl_cons] at hh2
    rcases hw : w.nickname with _ | n
    · rw [hw] at hh2
      simp only [] at hh2
      rcases ih _ hh2 with h1 | ⟨h1, h2⟩
      · exact Or.inl h1
      · exact Or.inr ⟨List.mem_cons_of_mem w h1, h2⟩
    · rw [hw] at hh2
      simp only [] at hh2
      by_cases hne : n.isEmpty = true
      · rw [if_pos hne] at hh2
        rcases ih _ hh2 with h1 | ⟨h1, h2⟩
        · exact Or.inl h1
        · exact Or.inr ⟨List.mem_cons_of_mem w h1, h2⟩
      · rw [if_neg hne] at hh2
        rcases ih _ hh2 with h1 | ⟨h1, h2⟩
        · have hEq : handlesOf w = pyLower n :: w.aliases.map pyLower := by
            unfold handlesOf
            rw [hw]
            simp [hne]
          rcases aliasFold_hit w w.aliases _ h u h1 with h2 | ⟨h2, a, ha, h3⟩
          · rcases dictInsert_hit h2 with ⟨h3, h4⟩ | h3
            · refine Or.inr ⟨?_, ?_⟩
              · rw [h4]; exact List.mem_cons_self w rest
              · rw [h4, hEq, h3]; exact List.mem_cons_self _ _
            · exact Or.inl h3
          · refine Or.inr ⟨?_, ?_⟩
            · rw [h2]; exact List.mem_cons_self w rest
            · rw [h2, hEq, h3]
              exact List.mem_cons_of_mem _ (List.mem_map_of_mem pyLower ha)
        · exact Or.inr ⟨List.mem_cons_of_mem w h1, h2⟩

theorem nickFold_mem_of (as : List PyString) :
    ∀ (acc : List PyString) (x : PyString), x ∈ acc →
    x ∈ as.foldl (fun a al => pySetAdd a (pyLower al)) acc := by
  induction as with
  | nil => intro acc x hx; exact hx
  | cons a rest ih =>
    intro acc x hx
    rw [List.foldl_cons]
    exact ih _ x (pySetAdd_mem_of hx)

theorem nickFold_mem_self (as : List PyString) :
    ∀ (acc : List PyString) (a : PyString), a ∈ as →
    pyLower a ∈ as.foldl (fun a al => pySetAdd a (pyLower al)) acc := by
  induction as with
  | nil => intro acc a ha; cases ha
  | cons b rest ih =>
    intro acc a ha
    rw [List.foldl_cons]
    rcases List.mem_cons.mp ha with h | h
    · subst h
      exact nickFold_mem_of rest _ _ (pySetAdd_mem_self _ _)
    · exact ih _ a h

theorem y360MemberNicknames_acc_sub (index : PyString → Option Y360User) :
    ∀ (members : List Y360User) (acc ns : List PyString),
    y360MemberNicknames index members acc = .ok ns →
    ∀ x ∈ acc, x ∈ ns := by
  intro members
  induction members with
  | nil =>
    intro acc ns h x hx
    simp only [y360MemberNicknames] at h
    injection h with h2
    subst h2
    exact hx
  | cons user rest ih =>
    intro acc ns h x hx
    simp only [y360MemberNicknames] at h
    rcases hn : user.nickname with _ | n
    · rw [hn] at h
      simp at h
    · rw [hn] at h
      simp only [] at h
      rcases hi : index (pyLower n) with _ | iu
      · rw [hi] at h
        simp at h
      · rw [hi] at h
        simp only [] at h
        refine ih _ ns h x (nickFold_mem_of _ _ x ?_)
        split
        · exact pySetAdd_mem_of hx
        · exact hx

theorem y360MemberNicknames_mem (index : PyString → Option Y360User) :
    ∀ (members : List Y360User) (acc ns : List PyString),
    y360MemberNicknames index members acc = .ok ns →
    ∀ m ∈ members, ∃ n iu, m.nickname = some n ∧
      index (pyLower n) = some iu ∧
      (n.isEmpty = false → pyLower n ∈ ns) ∧
      ∀ al ∈ iu.aliases, pyLower al ∈ ns := by
  intro members
  induction members with
  | nil => intro acc ns h m hm; cases hm
  | cons user rest ih =>
    intro acc ns h m hm
    simp only [y360MemberNicknames] at h
    rcases hn : user.nickname with _ | n
    · rw [hn] at h
      simp at h
    · rw [hn] at h
      simp only [] at h
      rcases hi : index (pyLower n) with _ | iu
      · rw [hi] at h
        simp at h
      · rw [hi] at h
        simp only [] at h
        rcases List.mem_cons.mp hm with hm1 | hm1
        · subst hm1
          refine ⟨n, iu, hn, hi, ?_, ?_⟩
          · intro hne
            refine y360MemberNicknames_acc_sub index rest _ ns h _ ?_
            refine nickFold_mem_of _ _ _ ?_
            rw [if_pos (show (!n.isEmpty) = true by rw [hne]; rfl)]
            exact pySetAdd_mem_self _ _
          · intro al hal
            refine y360MemberNicknames_acc_sub index rest _ ns h _ ?_
            exact nickFold_mem_self _ _ al hal
        · exact ih _ ns h m hm1

theorem addScan_mem (index : PyString → Option Y360User)
    (ns : List PyString) :
    ∀ (adSet : List PyString) (acc : List MemberRef × Nat) (a : MemberRef),
    a ∈ (adSet.foldl
      (fun acc n =>
        if ns.contains n then acc
        else
          match index n with
          | some u => (acc.1 ++ [⟨n, u.uid⟩], acc.2)
          | none => (acc.1, acc.2 + 1)) acc).1 →
    a ∈ acc.1 ∨ ∃ n u, n ∈ adSet ∧ ns.contains n = false ∧
      index n = some u ∧ a = ⟨n, u.uid⟩ := by
  intro adSet
  induction adSet with
  | nil => intro acc a ha; exact Or.inl ha
  | cons n rest ih =>
    intro acc a ha
    rw [List.foldl_cons] at ha
    rcases ih _ a ha with h1 | ⟨n', u, hn', hc, hidx, haEq⟩
    · by_cases hc : ns.contains n = true
      · rw [if_pos hc] at h1
        exact Or.inl h1
      · rw [if_neg hc] at h1
        rcases hi : index n with _ | u
        · rw [hi] at h1
          exact Or.inl h1
        · rw [hi] at h1
          simp only [] at h1
          rcases List.mem_append.mp h1 with h2 | h2
          · exact Or.inl h2
          · rw [Bool.not_eq_true] at hc
            exact Or.inr ⟨n, u, List.mem_cons_self n rest, hc, hi,
              List.mem_singleton.mp h2⟩
    · exact Or.inr ⟨n', u, List.mem_cons_of_mem n hn', hc, hidx, haEq⟩

theorem users_to_add_of_mem {index : PyString → Option Y360User}
    {ns adSet : List PyString} {a : MemberRef}
    (ha : a ∈ (users_to_add_of index ns adSet).1) :
    ∃ n u, n ∈ adSet ∧ ns.contains n = false ∧ index n = some u ∧
      a = ⟨n, u.uid⟩ := by
  unfold users_to_add_of at ha
  rcases addScan_mem index ns adSet ([], 0) a ha with h | h
  · simp at h
  · exact h

theorem remScan_mem (adSet : List PyString) :
    ∀ (members : List Y360User) (acc : List MemberRef) (r : MemberRef),
    r ∈ members.foldl
      (fun acc u =>
        match u.nickname with
        | none => acc
        | some n =>
            if n.isEmpty then acc
            else if adSet.contains (pyLower n) then acc
            else acc ++ [⟨n, u.uid⟩]) acc →
    r ∈ acc ∨ ∃ m n, m ∈ members ∧ m.nickname = some n ∧
      n.isEmpty = false ∧ adSet.contains (pyLower n) = false ∧
      r = ⟨n, m.uid⟩ := by
  intro members
  induction members with
  | nil => intro acc r hr; exact Or.inl hr
  | cons u rest ih =>
    intro acc r hr
    rw [List.foldl_cons] at hr
    rcases ih _ r hr with h1 | ⟨m, n, hm, hmn, hne, hc, hrEq⟩
    · rcases hn : u.nickname with _ | n
      · rw [hn] at h1
        exact Or.inl h1
      · rw [hn] at h1
        simp only [] at h1
        by_cases hne : n.isEmpty = true
        · rw [if_pos hne] at h1
          exact Or.inl h1
        · rw [if_neg hne] at h1
          by_cases hc2 : adSet.contains (pyLower n) = true
          · rw [if_pos hc2] at h1
            exact Or.inl h1
          · rw [if_neg hc2] at h1
            rcases List.mem_append.mp h1 with h2 | h2
            · exact Or.inl h2
            · rw [Bool.not_eq_true] at hne hc2
              exact Or.inr ⟨u, n, List.mem_cons_self u rest, hn, hne, hc2,
                List.mem_singleton.mp h2⟩
    · exact Or.inr ⟨m, n, List.mem_cons_of_mem u hm, hmn, hne, hc, hrEq⟩

theorem users_to_remove_of_mem {members : List Y360User}
    {adSet : List PyString} {r : MemberRef}
    (hr : r ∈ users_to_remove_of members adSet) :
    ∃ m n, m ∈ members ∧ m.nickname = some n ∧ n.isEmpty = false ∧
      adSet.contains (pyLower n) = false ∧ r = ⟨n, m.uid⟩ := by
  unfold users_to_remove_of at hr
  rcases remScan_mem adSet members [] r hr with h | h
  · simp at h
  · exact h

/-- C2: amended.  When no handle (lower-cased nickname or alias) is shared
by two distinct directory users, user ids are unique, and the group's
members are directory users, the id sets of `users_to_add` and
`users_to_remove` are disjoint. -/
theorem C2_add_remove_disjoint (users members : List Y360User)
    (ns adSet : List PyString)
    (Huniq : ∀ u ∈ users, ∀ v ∈ users, u ≠ v → ∀ h ∈ handlesOf u,
      h ∉ handlesOf v)
    (Huid : ∀ u ∈ users, ∀ v ∈ users, u.uid = v.uid → u = v)
    (Hmem : ∀ m ∈ members, m ∈ users)
    (hns : y360MemberNicknames (buildUserIndex users) members [] = .ok ns) :
    ∀ a ∈ (users_to_add_of (buildUserIndex users) ns adSet).1,
      ∀ r ∈ users_to_remove_of members adSet, a.user_id ≠ r.user_id := by
  intro a ha r hr heq
  rcases users_to_add_of_mem ha with ⟨n, u, hnA, hnNs, hidx, haEq⟩
  rcases users_to_remove_of_mem hr with ⟨m, nn, hmM, hmn, hmne, hmAd, hrEq⟩
  rcases buildUserIndex_hit hidx with ⟨huU, hhand⟩
  have hmU := Hmem m hmM
  rw [haEq, hrEq] at heq
  have huid : u.uid = m.uid := heq
  have hum : u = m := Huid u huU m hmU huid
  rw [hum] at hhand
  have hEq : handlesOf m = pyLower nn :: m.aliases.map pyLower := by
    unfold handlesOf
    rw [hmn]
    simp [hmne]
  rw [hEq] at hhand
  rcases List.mem_cons.mp hhand with hcase | hcase
  · have hc : adSet.contains n = true := List.elem_iff.mpr hnA
    rw [hcase] at hc
    rw [hc] at hmAd
    exact Bool.noConfusion hmAd
  · rcases List.mem_map.mp hcase with ⟨al, hal, hlow⟩
    rcases y360MemberNicknames_mem (buildUserIndex users) members [] ns hns
      m hmM with ⟨n2, iu, hn2, hiu, _, hAls⟩
    rw [hmn] at hn2
    injection hn2 with hn2e
    subst hn2e
    rcases buildUserIndex_hit hiu with ⟨hiuU, hiuH⟩
    have hprim : pyLower nn ∈ handlesOf m := by
      rw [hEq]
      exact List.mem_cons_self _ _
    have hium : iu = m := by
      by_contra hne2
      exact Huniq iu hiuU m hmU hne2 (pyLower nn) hiuH hprim
    rw [hium] at hAls
    have hnNs2 : n ∈ ns := by
      rw [← hlow]
      exact hAls al hal
    have hc2 : ns.contains n = true := List.elem_iff.mpr hnNs2
    rw [hc2] at hnNs
    exact Bool.noConfusion hnNs

/-- C2: refuted as stated.  `vvC2`'s alias `bob` overwrites the index entry
of `uuC2`'s primary nickname, so member `uuC2`'s alias `robert` is not in
the member-nickname set: user id `1` is selected both for addition (via
handle `robert`) and for removal (via nickname `bob`). -/
theorem C2_counterexample_alias_collision :
    y360MemberNicknames (buildUserIndex usersC2) membersC2 [] =
      .ok ["bob".toList] ∧
    (users_to_add_of (buildUserIndex usersC2) ["bob".toList]
      (adNicknameSet emailsC2)).1 =
      [⟨"robert".toList, "1".toList⟩] ∧
    users_to_remove_of membersC2 (adNicknameSet emailsC2) =
      [⟨"bob".toList, "1".toList⟩] := ⟨rfl, rfl, rfl⟩

/-- Closed instance of the add/remove disjointness theorem. -/
theorem C2_add_remove_disjoint_witness :
    ((∀ u ∈ usersC5, ∀ v ∈ usersC5, u ≠ v → ∀ h ∈ handlesOf u,
        h ∉ handlesOf v) ∧
      (∀ u ∈ usersC5, ∀ v ∈ usersC5, u.uid = v.uid → u = v) ∧
      (∀ m ∈ membersC5, m ∈ usersC5) ∧
      y360MemberNicknames (buildUserIndex usersC5) membersC5 [] =
        .ok ["alice".toList, "a.smith".toList, "bob".toList]) ∧
    (∀ a ∈ (users_to_add_of (buildUserIndex usersC5)
        ["alice".toList, "a.smith".toList, "bob".toList]
        (adNicknameSet emailsC5)).1,
      ∀ r ∈ users_to_remove_of membersC5 (adNicknameSet emailsC5),
      a.user_id ≠ r.user_id) :=
  ⟨⟨by decide, by decide, by decide, rfl⟩,
    C2_add_remove_disjoint usersC5 membersC5
      ["alice".toList, "a.smith".toList, "bob".toList]
      (adNicknameSet emailsC5) (by decide) (by decide) (by decide) rfl⟩

/-- C6: amended.  When no handle is shared by two distinct directory users
and the group's members are directory users, a source handle equal to the
lower-cased alias of a current member never appears in `users_to_add`. -/
theorem C6_alias_add_skip (users members : List Y360User)
    (ns adSet : List PyString) (u : Y360User) (n al : PyString)
    (Huniq : ∀ x ∈ users, ∀ v ∈ users, x ≠ v → ∀ h ∈ handlesOf x,
      h ∉ handlesOf v)
    (Hmem : ∀ m ∈ members, m ∈ users)
    (hns : y360MemberNicknames (buildUserIndex users) members [] = .ok ns)
    (hu : u ∈ members) (hn : u.nickname = some n) (hne : n.isEmpty = false)
    (hal : al ∈ u.aliases) :
    ∀ a ∈ (users_to_add_of (buildUserIndex users) ns adSet).1,
      a.nickname ≠ pyLower al := by
  intro a ha haEq2
  rcases users_to_add_of_mem ha with ⟨h', u', hA, hNs, hidx, haEq⟩
  rcases y360MemberNicknames_mem (buildUserIndex users) members [] ns hns
    u hu with ⟨n2, iu, hn2, hiu, _, hAls⟩
  rw [hn] at hn2
  injection hn2 with hn2e
  subst hn2e
  rcases buildUserIndex_hit hiu with ⟨hiuU, hiuH⟩
  have huU := Hmem u hu
  have hEq : handlesOf u = pyLower n :: u.aliases.map pyLower := by
    unfold handlesOf
    rw [hn]
    simp [hne]
  have hprim : pyLower n ∈ handlesOf u := by
    rw [hEq]
    exact List.mem_cons_self _ _
  have hium : iu = u := by
    by_contra hne2
    exact Huniq iu hiuU u huU hne2 (pyLower n) hiuH hprim
  rw [hium] at hAls
  have hin : pyLower al ∈ ns := hAls al hal
  rw [haEq] at haEq2
  have hh : h' = pyLower al := haEq2
  rw [hh] at hNs
  have hc : ns.contains (pyLower al) = true := List.elem_iff.mpr hin
  rw [hc] at hNs
  exact Bool.noConfusion hNs

/-- C6: refuted as stated.  `robert` equals (case-insensitively) an alias —
not the primary nickname — of `uuC2`, `uuC2` is a current member, and yet
`robert` appears in `users_to_add`, because `vvC2`'s colliding alias hides
`uuC2`'s index entry. -/
theorem C6_counterexample_alias_added :
    "robert".toList ∈ uuC2.aliases ∧ uuC2 ∈ membersC2 ∧
    y360MemberNicknames (buildUserIndex usersC2) membersC2 [] =
      .ok ["bob".toList] ∧
    ((users_to_add_of (buildUserIndex usersC2) ["bob".toList]
        (adNicknameSet emailsC2)).1.map MemberRef.nickname) =
      ["robert".toList] := ⟨by decide, by decide, rfl, rfl⟩

/-- Closed instance of the alias-add-skip theorem. -/
theorem C6_alias_add_skip_witness :
    ((∀ x ∈ usersC5, ∀ v ∈ usersC5, x ≠ v → ∀ h ∈ handlesOf x,
        h ∉ handlesOf v) ∧
      (∀ m ∈ membersC5, m ∈ usersC5) ∧
      y360MemberNicknames (buildUserIndex usersC5) membersC5 [] =
        .ok ["alice".toList, "a.smith".toList, "bob".toList] ∧
      uAlice ∈ membersC5 ∧ uAlice.nickname = some "alice".toList ∧
      "alice".toList.isEmpty = false ∧ "a.smith".toList ∈ uAlice.aliases) ∧
    (∀ a ∈ (users_to_add_of (buildUserIndex usersC5)
        ["alice".toList, "a.smith".toList, "bob".toList]
        (adNicknameSet emailsC5)).1,
      a.nickname ≠ pyLower "a.smith".toList) :=
  ⟨⟨by decide, by decide, rfl, by decide, rfl, rfl, by decide⟩,
    C6_alias_add_skip usersC5 membersC5
      ["alice".toList, "a.smith".toList, "bob".toList]
      (adNicknameSet emailsC5) uAlice "alice".toList "a.smith".toList
      (by decide) (by decide) rfl (by decide) rfl rfl (by decide)⟩
